import Mathlib

/-
Formal model of the CSV transformation/validation program in src/main.py.

The program is a pandas batch tool with two entry points:
  * CSVTransformer.transform_and_union: per-file column normalization,
    derived columns (Filename, Month/Year, TotalAmount, split geo columns),
    concatenation and a sort by Month/Year;
  * CSVValidator.get_file_stats / get_discrepancies: per-file statistics and
    a cross-file column-type discrepancy report.

Modelling conventions:
  * Python strings are Lean String values; all character-level operations
    (split, replace, lower, strip) are re-implemented on List Char so that
    every definition evaluates inside the kernel.  Inputs of interest are
    ASCII, and Char.toLower agrees with Python str.lower on ASCII.
  * A pandas cell is a Value: null stands for NaN/None/NaT, str for Python
    str, num for int64/float64 entries (modelled as exact rationals - the
    claims under study are about which value is computed, never about IEEE
    rounding), ts for a timestamp and date for a datetime.date.
  * A DataFrame is a row count plus an ordered list of named, dtype-tagged
    columns; read_csv results are the model's inputs.
  * Fallible pandas operations return Except String; an .error value models
    a raised exception.
  * External-library behaviour that the code relies on is modelled from its
    documented contract; every such spot is flagged in a doc comment.
-/

/-- Python str.lower, character by character (ASCII inputs; Char.toLower
agrees with Python on ASCII). -/
def lowerChars (s : List Char) : List Char := s.map Char.toLower

/-- Python s.split(sep) for a single-character separator sep: the list of
(possibly empty) chunks between occurrences of sep.  Matches Python:
"".split(sep) = [""], "a__b".split("_") = ["a", "", "b"]. -/
def splitOnChar (sep : Char) : List Char → List (List Char)
  | [] => [[]]
  | c :: rest =>
      let r := splitOnChar sep rest
      if c = sep then [] :: r
      else
        match r with
        | [] => [[c]]
        | h :: t => (c :: h) :: t

/-- One fuel-indexed step of Python str.replace: scan left to right, replace
each non-overlapping occurrence of pat.  Fuel is the length of the scanned
string, which suffices because pat is nonempty at every use site. -/
def replaceAllGo (pat repl : List Char) : Nat → List Char → List Char
  | 0, s => s
  | _ + 1, [] => []
  | fuel + 1, c :: rest =>
      if pat.isPrefixOf (c :: rest) then
        repl ++ replaceAllGo pat repl fuel ((c :: rest).drop pat.length)
      else c :: replaceAllGo pat repl fuel rest

/-- Python s.replace(old, new) for nonempty old: replace every
non-overlapping occurrence, left to right. -/
def replaceAll (pat repl s : List Char) : List Char :=
  replaceAllGo pat repl s.length s

/-- Python s.endswith(suffix). -/
def endsWithChars (suf s : List Char) : Bool :=
  suf.reverse.isPrefixOf s.reverse

/-- A calendar date at month granularity.  strptime("%b/%Y") produces the
first day of the month, so only year and month carry information; the day
component (always 1) is omitted from the model. -/
structure MYDate where
  year : Nat
  month : Nat
  deriving DecidableEq, Repr

/-- Ordering of datetime.date values at month granularity (the day is
always 1): lexicographic on (year, month). -/
def myDateLE (a b : MYDate) : Bool :=
  a.year < b.year || (a.year = b.year && a.month ≤ b.month)

/-- The C-locale month abbreviations recognised by strptime's %b. -/
def monthAbbrevs : List String :=
  ["jan", "feb", "mar", "apr", "may", "jun",
   "jul", "aug", "sep", "oct", "nov", "dec"]

/-- Digit characters to the Nat they denote, most significant first. -/
def digitsToNat (ds : List Char) : Nat :=
  ds.foldl (fun n c => n * 10 + (c.toNat - 48)) 0

/-- Model of datetime.datetime.strptime(s, "%b/%Y").date(): a
case-insensitive three-letter month abbreviation, a literal slash, exactly
four digits, and nothing left over (strptime raises on unconverted
trailing data, modelled as none). -/
def parseMonthYear (s : String) : Option MYDate :=
  let cs := lowerChars s.data
  match (List.range 12).find?
      (fun i => ((monthAbbrevs.getD i "").data).isPrefixOf cs) with
  | none => none
  | some i =>
      match cs.drop 3 with
      | '/' :: ds =>
          if ds.length = 4 ∧ ds.all Char.isDigit then
            some ⟨digitsToNat ds, i + 1⟩
          else none
      | _ => none

/-- Lines 16 of src/main.py: filename.split("_")[-1].split(".")[0] - the
token after the last underscore and before the first following dot. -/
def rawToken (filename : String) : String :=
  String.mk ((splitOnChar '.' ((splitOnChar '_' filename.data).getLastD [])).headD [])

/-- Lines 17-24 of src/main.py: lowercase the token; a token that merely
starts with "jly" is collapsed to exactly "jul" (dropping any suffix);
then, when the token ends with "24", every occurrence of "24" is replaced
by "/2024", otherwise "/2023" is appended. -/
def canonMonth (tok : String) : String :=
  let m := String.mk (lowerChars tok.data)
  let m := if ("jly".data).isPrefixOf m.data then "jul" else m
  if endsWithChars "24".data m.data then
    String.mk (replaceAll "24".data "/2024".data m.data)
  else m ++ "/2023"

/-- Model of CSVTransformer.extract_month_year_from_filename (src/main.py
lines 15-30).  The try/except around strptime is the Option: a parse
failure yields none (the Python code logs and returns None) instead of
propagating an exception. -/
def extract_month_year_from_filename (filename : String) : Option MYDate :=
  parseMonthYear (canonMonth (rawToken filename))

/-- Python regex \s over ASCII. -/
def isSpaceChar (c : Char) : Bool :=
  c = ' ' || c = '\t' || c = '\n' || c = '\r' || c = '\x0b' || c = '\x0c'

/-- Python regex \w over ASCII (the inputs of interest are ASCII). -/
def isWordChar (c : Char) : Bool := c.isAlpha || c.isDigit || c = '_'

/-- The character class [\d,] of the money regex. -/
def isDigitComma (c : Char) : Bool := c.isDigit || c = ','

/-- A pandas cell value.  null models NaN/None/NaT; num models int64 and
float64 entries as exact rationals (the claims under study never depend on
IEEE rounding); ts is a timestamp, date a datetime.date at month
granularity. -/
inductive Value where
  | null
  | str (s : String)
  | num (q : Rat)
  | ts (s : String)
  | date (d : MYDate)
  deriving DecidableEq, Repr

/-- The tail of the money regex after a candidate colon: \s*\$([\d,]+\.\d{2}).
The greedy \s* can only stop at the dollar sign, so it is a plain
skip-whitespace; the greedy [\d,]+ must be the maximal digit/comma run,
because a shorter run would leave a digit or comma where the literal dot is
required.  Returns the captured group. -/
def matchAmount (s : List Char) : Option (List Char) :=
  match s.dropWhile isSpaceChar with
  | c :: rest =>
      if c = '$' then
        let run := rest.takeWhile isDigitComma
        if run.isEmpty then none
        else
          match rest.drop run.length with
          | d :: e1 :: e2 :: _ =>
              if (d == '.') && e1.isDigit && e2.isDigit then some (run ++ [d, e1, e2])
              else none
          | _ => none
      else none
  | [] => none

/-- One candidate colon position for `[^\d]*\s*\:` at offset j of s. -/
def colonAt (s : List Char) (j : Nat) : Option (List Char) :=
  match s.drop j with
  | c :: rest => if c = ':' then matchAmount rest else none
  | [] => none

/-- Backtracking over `[^\d]*\s*\:`: both quantifiers consume only
non-digits, so a reachable colon is any colon with no digit before it, and
greedy matching tries the farthest reachable offset first, stepping down on
failure.  The argument n is the farthest offset still to try. -/
def tryColons (s : List Char) : Nat → Option (List Char)
  | 0 => colonAt s 0
  | n + 1 => (colonAt s (n + 1)).orElse (fun _ => tryColons s n)

/-- The part of the pattern after "total\b", applied to the text after the
literal: the farthest offset worth trying is the length of the maximal
non-digit run. -/
def afterTotalMatch (s : List Char) : Option (List Char) :=
  tryColons s (s.takeWhile (fun c => !c.isDigit)).length

/-- Case-insensitive test for the literal "total" at the head of s. -/
def ciPrefixTotal (s : List Char) : Bool :=
  ("total".data).isPrefixOf (lowerChars s)

/-- The word boundary \b before the "t" of "total": start of string or a
preceding non-word character. -/
def boundaryBefore (prev : Option Char) : Bool :=
  match prev with
  | none => true
  | some c => !isWordChar c

/-- The word boundary \b after the "l" of "total": end of string or a
following non-word character. -/
def boundaryAfterTotal (s : List Char) : Bool :=
  match s with
  | [] => true
  | c :: _ => !isWordChar c

/-- re.search for r"\btotal\b[^\d]*\s*\:\s*\$([\d,]+\.\d{2})" with
re.IGNORECASE: try a full match at each position, left to right; prev is
the character before the current position, for the word boundary. -/
def searchTotalGo (prev : Option Char) : List Char → Option (List Char)
  | [] => none
  | c :: rest =>
      match (if boundaryBefore prev && ciPrefixTotal (c :: rest)
                && boundaryAfterTotal ((c :: rest).drop 5) then
               afterTotalMatch ((c :: rest).drop 5)
             else none) with
      | some g => some g
      | none => searchTotalGo (some c) rest

/-- re.search of the money pattern over a whole string, returning the first
captured group. -/
def searchTotal (s : String) : Option (List Char) :=
  searchTotalGo none s.data

/-- float(total_amount.replace(",", "")) on a captured group of shape
[\d,]+\.\d\d: strip the commas and read the decimal.  Python float returns
the nearest IEEE double; the model keeps the exact decimal value - the
claims concern which substring is matched, not binary rounding. -/
def decimalValue (g : List Char) : Rat :=
  let g' := g.filter (fun c => c ≠ ',')
  match splitOnChar '.' g' with
  | [ip, fp] => mkRat (digitsToNat ip * 10 ^ fp.length + digitsToNat fp) (10 ^ fp.length)
  | _ => 0

/-- Model of CSVTransformer.extract_total_from_task_details (src/main.py
lines 32-43): null or non-string input yields 0.0; otherwise the first
match of r"\btotal\b[^\d]*\s*\:\s*\$([\d,]+\.\d{2})" (IGNORECASE) is parsed
with thousands separators removed; no match yields 0.0. -/
def extract_total_from_task_details (v : Value) : Rat :=
  match v with
  | .str s =>
      match searchTotal s with
      | some g => decimalValue g
      | none => 0
  | _ => 0

/-- Substring containment on character lists. -/
def containsSub (pat : List Char) : List Char → Bool
  | [] => pat.isEmpty
  | c :: rest => pat.isPrefixOf (c :: rest) || containsSub pat rest

/-- One full attempt of re.search at a single scan position: both word
boundaries, the case-insensitive literal "total", and the rest of the
pattern; prev is the character preceding the position.  This is exactly
the per-position test searchTotalGo performs. -/
def matchAttempt (prev : Option Char) (s : List Char) : Option (List Char) :=
  if boundaryBefore prev && ciPrefixTotal s && boundaryAfterTotal (s.drop 5) then
    afterTotalMatch (s.drop 5)
  else none

/-- The character preceding the scan position that follows the prefix pre,
when the scan began with preceding character prev. -/
def prevOf (prev : Option Char) (pre : List Char) : Option Char :=
  match pre.getLast? with
  | some c => some c
  | none => prev

/-- The text a money-pattern match consumes after the literal "total": a
digit-free gap, the colon, whitespace, the dollar sign, the captured
amount r0 :: rtl followed by the dot and two decimals, and arbitrary
trailing text. -/
def amountTail (gap ws rtl suf : List Char) (r0 d1 d2 : Char) : List Char :=
  gap ++ (':' :: (ws ++ ('$' :: ((r0 :: rtl) ++ ('.' :: d1 :: d2 :: suf)))))

/-- One pandas column: its name, the dtype string str(df[col].dtype), and
its cells, top to bottom. -/
structure Col where
  name : String
  dtype : String
  cells : List Value
  deriving DecidableEq, Repr

/-- A pandas DataFrame: len(df) plus the ordered, named columns.  The dfs
fed to the pipeline are read_csv results, so their row counts and dtype
tags are inputs of the model. -/
structure DataFrame where
  nrows : Nat
  cols : List Col
  deriving DecidableEq, Repr

/-- Every column holds exactly len(df) cells (true of every real
DataFrame; hypothesised where a proof needs it). -/
def DataFrame.Wf (df : DataFrame) : Prop :=
  ∀ c ∈ df.cols, c.cells.length = df.nrows

/-- df[name]: the first column so named (read_csv output names are
unique). -/
def getCol? (df : DataFrame) (n : String) : Option Col :=
  df.cols.find? (fun c => c.name == n)

/-- name in df.columns. -/
def hasCol (df : DataFrame) (n : String) : Bool :=
  df.cols.any (fun c => c.name == n)

/-- df[name] = values: pandas overwrites in place when the column exists
and appends a new column at the end otherwise. -/
def setCol (df : DataFrame) (n dtype : String) (cells : List Value) : DataFrame :=
  if hasCol df n then
    ⟨df.nrows, df.cols.map (fun c => if c.name == n then ⟨n, dtype, cells⟩ else c)⟩
  else ⟨df.nrows, df.cols ++ [⟨n, dtype, cells⟩]⟩

/-- The seven temporal column names, src/main.py lines 46-54. -/
def date_columns : List String :=
  ["completeBeforeTime", "completeAfterTime", "creationTime", "startTime",
   "completionTime", "departureTime", "arrivalTime"]

/-- The three free-form object column names, line 59. -/
def object_columns : List String :=
  ["forceCompletedBy", "dependencies", "metadata"]

/-- The five composite geo column names, lines 64-70. -/
def lonlat_columns : List String :=
  ["destinationLonLat", "completionLonLat", "startLonLat",
   "departureLonLat", "arrivalLonLat"]

/-- Elementwise fallible map, as pandas applies a converter down a column:
left to right, first failure raises. -/
def mapE {α β : Type} (f : α → Except String β) : List α → Except String (List β)
  | [] => .ok []
  | a :: t =>
      match f a with
      | .error e => .error e
      | .ok b =>
          match mapE f t with
          | .error e => .error e
          | .ok bs => .ok (b :: bs)

/-- pd.to_datetime on one cell, modelled from its documented contract (the
library is external to the repository): missing values pass through as
missing, already-parsed timestamps and dates pass through, ISO-shaped
dashed strings parse (the parsed representation is abstracted - no claim
inspects it), anything else raises.  Every claim under study either skips
this conversion (column absent or dtype already datetime64[ns]) or only
needs its success. -/
def to_datetimeV : Value → Except String Value
  | .null => .ok .null
  | .ts s => .ok (.ts s)
  | .date d => .ok (.date d)
  | .num _ => .ok (.ts "epoch")
  | .str s =>
      if s.data.length = 10 ∧ s.data.all (fun c => c.isDigit || c = '-') then
        .ok (.ts s)
      else .error ("to_datetime: " ++ s)

/-- Lines 55-57: parse each present temporal column whose dtype is not
already datetime64[ns]; pd.to_datetime raises on unparseable content, and
on success the column dtype becomes datetime64[ns]. -/
def dateColsGo : List String → DataFrame → Except String DataFrame
  | [], df => .ok df
  | c :: rest, df =>
      match getCol? df c with
      | none => dateColsGo rest df
      | some col =>
          if col.dtype == "datetime64[ns]" then dateColsGo rest df
          else
            match mapE to_datetimeV col.cells with
            | .error e => .error e
            | .ok cells2 => dateColsGo rest (setCol df c "datetime64[ns]" cells2)

/-- Lines 60-62: cast each present object column to dtype object; the cast
never fails and leaves every cell unchanged. -/
def objColsGo : List String → DataFrame → DataFrame
  | [], df => df
  | c :: rest, df =>
      match getCol? df c with
      | none => objColsGo rest df
      | some col =>
          if col.dtype == "object" then objColsGo rest df
          else objColsGo rest (setCol df c "object" col.cells)

/-- Series.str.lstrip("backtick") on one cell: strings lose every leading
backtick; the .str accessor maps non-string cells (NaN included) to NaN. -/
def lstripBacktickV : Value → Value
  | .str s => .str (String.mk (s.data.dropWhile (fun c => c = Char.ofNat 96)))
  | _ => .null

/-- Series.str.split(",") on one cell: the comma-chunks of a string cell,
none (an all-NaN expanded row) for anything else. -/
def splitCommaV : Value → Option (List (List Char))
  | .str s => some (splitOnChar ',' s.data)
  | _ => none

/-- The column count .str.split(",", expand=True) produces: the maximal
chunk count over the string cells.  The two-column assignment
df[[lon, lat]] = ... raises a ValueError unless this is exactly 2. -/
def geoWidth (cells : List Value) : Nat :=
  cells.foldl (fun m v =>
    match splitCommaV v with
    | some ps => max m ps.length
    | none => m) 1

/-- Chunk i of a split cell, null-padded as pandas pads short rows. -/
def splitPart (i : Nat) (v : Value) : Value :=
  match splitCommaV v with
  | none => .null
  | some ps =>
      match ps.get? i with
      | some p => .str (String.mk p)
      | none => .null

/-- Python float(str) restricted to the plain decimal forms the pipeline
feeds it: optional surrounding whitespace, optional sign, digits with at
most one dot and at least one digit.  Exponent/inf/nan spellings are not
modelled; no claim or witness exercises them. -/
def pyFloat (s : List Char) : Option Rat :=
  let s1 := (((s.dropWhile isSpaceChar).reverse).dropWhile isSpaceChar).reverse
  let sign : Int := match s1 with
    | '-' :: _ => -1
    | _ => 1
  let s2 : List Char := match s1 with
    | '-' :: r => r
    | '+' :: r => r
    | r => r
  match splitOnChar '.' s2 with
  | [ip] =>
      if ip ≠ [] ∧ ip.all Char.isDigit then
        some (mkRat (sign * digitsToNat ip) 1)
      else none
  | [ip, fp] =>
      if (ip ++ fp) ≠ [] ∧ ip.all Char.isDigit ∧ fp.all Char.isDigit then
        some (mkRat (sign * (digitsToNat ip * 10 ^ fp.length + digitsToNat fp)) (10 ^ fp.length))
      else none
  | _ => none

/-- Series.astype(float) on one cell: NaN passes through, numbers pass
through, strings must parse (ValueError otherwise), anything else
raises. -/
def floatCastV : Value → Except String Value
  | .null => .ok .null
  | .num q => .ok (.num q)
  | .str s =>
      match pyFloat s.data with
      | some q => .ok (.num q)
      | none => .error ("could not convert string to float: " ++ s)
  | _ => .error "float() argument must be a string or a real number"

/-- The derived-column base name: the geo column name with "LonLat"
removed (str.replace with an empty replacement). -/
def geoBase (c : String) : String :=
  String.mk (replaceAll "LonLat".data [] c.data)

/-- Lines 71-77, one iteration per composite geo column present: lstrip the
backtick marker in place, split each cell on commas, and assign the two
derived float columns <base>_Longitude and <base>_Latitude, where base is
the name with "LonLat" removed.  The expanded split must have exactly two
columns for the two-column assignment, and both must cast to float. -/
def lonlatGo : List String → DataFrame → Except String DataFrame
  | [], df => .ok df
  | c :: rest, df =>
      match getCol? df c with
      | none => lonlatGo rest df
      | some col =>
          let cells := col.cells.map lstripBacktickV
          let df2 := setCol df c col.dtype cells
          if geoWidth cells == 2 then
            match mapE floatCastV (cells.map (splitPart 0)),
                  mapE floatCastV (cells.map (splitPart 1)) with
            | .ok lns, .ok lts =>
                lonlatGo rest
                  (setCol (setCol df2 (geoBase c ++ "_Longitude") "float64" lns)
                    (geoBase c ++ "_Latitude") "float64" lts)
            | .error e, _ => .error e
            | _, .error e => .error e
          else .error "Columns must be same length as key"

/-- Python str() of one cell, as Series.astype(str) applies it elementwise:
NaN renders as the string "nan".  The numeric and timestamp renderings are
abstract placeholders - the recipientsNumbers cells of interest are
strings or nulls, and no claim inspects the other renderings. -/
def pyStrOfValue : Value → String
  | .null => "nan"
  | .str s => s
  | .num q => String.mk (Nat.toDigits 10 q.num.natAbs)
  | .ts s => s
  | .date d => String.mk (Nat.toDigits 10 d.year ++ '-' :: Nat.toDigits 10 d.month)

/-- Lines 79-82 of src/main.py, applied when recipientsNumbers is present:
astype(str) turns every cell into its text rendering (dtype object),
.str.lstrip strips the leading backticks, and Series.replace("nan",
np.nan) turns cells exactly equal to the string "nan" back into nulls.
The code's chained inplace replace mutates the underlying block -
pre-pandas-3.0 behaviour, which is what this repository targets. -/
def recipientsPhase (df : DataFrame) : DataFrame :=
  match getCol? df "recipientsNumbers" with
  | none => df
  | some col =>
      let cells1 := col.cells.map (fun v => Value.str (pyStrOfValue v))
      let cells2 := cells1.map lstripBacktickV
      let cells3 := cells2.map (fun v => if v == Value.str "nan" then Value.null else v)
      setCol df "recipientsNumbers" "object" cells3

/-- Line 84: df.drop(columns=lonlat_columns) with the default
errors="raise": KeyError unless every named column is present; on success
the named columns disappear. -/
def dropColumns (df : DataFrame) (names : List String) : Except String DataFrame :=
  if names.all (fun n => hasCol df n) then
    .ok ⟨df.nrows, df.cols.filter (fun c => !(names.contains c.name))⟩
  else .error "KeyError: not found in axis"

/-- Model of CSVTransformer.transform_columns (src/main.py lines 45-86):
temporal parse, object cast, geo split, recipientsNumbers cleanup, then
the unconditional drop of all five composite geo columns. -/
def transform_columns (df : DataFrame) : Except String DataFrame :=
  match dateColsGo date_columns df with
  | .error e => .error e
  | .ok df1 =>
      let df2 := objColsGo object_columns df1
      match lonlatGo lonlat_columns df2 with
      | .error e => .error e
      | .ok df3 => dropColumns (recipientsPhase df3) lonlat_columns

/-- Success test on an Except, usable under decide. -/
def isOkE {α : Type} : Except String α → Bool
  | .ok _ => true
  | .error _ => false

/-- Extract the payload of a successful Except, with a default. -/
def okD {α : Type} (e : Except String α) (dflt : α) : α :=
  match e with
  | .ok a => a
  | .error _ => dflt

/-- A well-formed composite geo cell: after the lstrip it is a string that
splits at exactly one comma into two float-parseable halves. -/
def GoodGeoCell (v : Value) : Bool :=
  match lstripBacktickV v with
  | .str s =>
      match splitOnChar ',' s.data with
      | [a, b] => (pyFloat a).isSome && (pyFloat b).isSome
      | _ => false
  | _ => false

/-- A geo column all of whose cells are well-formed, with at least one
row (the expanded split of an empty column does not have two columns). -/
def GeoColOK (cells : List Value) : Bool :=
  cells.all GoodGeoCell && !cells.isEmpty

/-- Column n is present and is a well-formed geo column. -/
def geoColPresentOK (df : DataFrame) (n : String) : Bool :=
  match getCol? df n with
  | some c => GeoColOK c.cells
  | none => false

/-- The name-separation facts about a batch of geo columns that the
iteration relies on: distinct names, no name equal to a generated name,
and pairwise-distinct generated names. -/
def GeoNamesSep (names : List String) : Prop :=
  names.Nodup ∧
  (∀ a ∈ names, ∀ b ∈ names,
      b ≠ geoBase a ++ "_Longitude" ∧ b ≠ geoBase a ++ "_Latitude") ∧
  (∀ a ∈ names, ∀ b ∈ names,
      geoBase a ++ "_Longitude" ≠ geoBase b ++ "_Latitude") ∧
  (∀ a ∈ names, ∀ b ∈ names, a ≠ b →
      geoBase a ++ "_Longitude" ≠ geoBase b ++ "_Longitude" ∧
      geoBase a ++ "_Latitude" ≠ geoBase b ++ "_Latitude")

instance (names : List String) : Decidable (GeoNamesSep names) := by
  unfold GeoNamesSep
  infer_instance

/-- A one-row table with a single numeric column and none of the expected
columns. -/
def c2CexDF : DataFrame := ⟨1, [⟨"amt", "float64", [.num 3]⟩]⟩

/-- The five geo columns with one well-formed row each, plus an unrelated
numeric column. -/
def c2WitDF : DataFrame :=
  ⟨1, [⟨"destinationLonLat", "object", [.str "\x6012.5,45.1"]⟩,
       ⟨"completionLonLat", "object", [.str "1.0,2.0"]⟩,
       ⟨"startLonLat", "object", [.str "3.5,4.5"]⟩,
       ⟨"departureLonLat", "object", [.str "5.25,6.75"]⟩,
       ⟨"arrivalLonLat", "object", [.str "7.0,8.0"]⟩,
       ⟨"amt", "float64", [.num 3]⟩]⟩

/-- The output table of transform_columns on the concrete witness input. -/
def c7WitOut : DataFrame := okD (transform_columns c2WitDF) ⟨0, []⟩

/-- A two-row table with the five geo columns, plus recipientsNumbers
holding a backtick-marked number and a null. -/
def c9WitDF : DataFrame :=
  ⟨2, [⟨"destinationLonLat", "object", [.str "1.0,2.0", .str "1.0,2.0"]⟩,
       ⟨"completionLonLat", "object", [.str "1.0,2.0", .str "1.0,2.0"]⟩,
       ⟨"startLonLat", "object", [.str "1.0,2.0", .str "1.0,2.0"]⟩,
       ⟨"departureLonLat", "object", [.str "1.0,2.0", .str "1.0,2.0"]⟩,
       ⟨"arrivalLonLat", "object", [.str "1.0,2.0", .str "1.0,2.0"]⟩,
       ⟨"recipientsNumbers", "object", [.str "\x60123", .null]⟩]⟩

/-- The output table of transform_columns on c9WitDF. -/
def c9WitOut : DataFrame := okD (transform_columns c9WitDF) ⟨0, []⟩

/-- os.path.basename: the part after the last slash. -/
def basename (p : String) : String :=
  String.mk ((p.data.reverse.takeWhile (fun c => c ≠ '/')).reverse)

/-- A Month/Year value as a cell: the date, or null when extraction
failed. -/
def optDateValue : Option MYDate → Value
  | some d => .date d
  | none => .null

/-- The per-file body of transform_and_union (src/main.py lines 91-104):
normalize the columns, then attach the Filename, Month/Year and
TotalAmount derived columns; TotalAmount is computed by applying the
extractor down the taskDetails column, which raises a KeyError when that
column is absent.  The model's input stands for the pair (path,
read_csv(path)). -/
def processFile (path : String) (df : DataFrame) : Except String DataFrame :=
  match transform_columns df with
  | .error e => .error e
  | .ok df' =>
      let df1 := setCol df' "Filename" "object"
        (List.replicate df'.nrows (.str (basename path)))
      let df2 := setCol df1 "Month/Year" "object"
        (List.replicate df1.nrows
          (optDateValue (extract_month_year_from_filename path)))
      match getCol? df2 "taskDetails" with
      | none => .error "KeyError: taskDetails"
      | some col =>
          .ok (setCol df2 "TotalAmount" "float64"
            (col.cells.map (fun v => .num (extract_total_from_task_details v))))

/-- Append a name to an accumulator unless already present. -/
def insertName (acc : List String) (n : String) : List String :=
  if acc.contains n then acc else acc ++ [n]

/-- Fold a frame's column names into the accumulator, in order. -/
def addNames (acc : List String) : List Col → List String
  | [] => acc
  | c :: t => addNames (insertName acc c.name) t

/-- Fold every frame's column names into the accumulator. -/
def unionNamesGo (acc : List String) : List DataFrame → List String
  | [] => acc
  | df :: t => unionNamesGo (addNames acc df.cols) t

/-- The union of the column names of a batch of frames, in order of first
appearance - the column order pd.concat produces with the default
sort=False. -/
def unionNames (dfs : List DataFrame) : List String :=
  unionNamesGo [] dfs

/-- One frame's contribution to a concatenated column: its own cells when
it has the column, a block of nulls otherwise (pd.concat fills missing
columns with NaN). -/
def colCellsOrNull (df : DataFrame) (n : String) : List Value :=
  match getCol? df n with
  | some c => c.cells
  | none => List.replicate df.nrows .null

/-- pd.concat(all_data, ignore_index=True), modelled from its documented
contract: an empty list raises ValueError("No objects to concatenate");
otherwise the rows of every frame are stacked in order over the union of
the columns,.  The dtype tags of the result are not modelled (set to
"object") - no claim inspects dtypes after concatenation. -/
def pdConcat (dfs : List DataFrame) : Except String DataFrame :=
  match dfs with
  | [] => .error "No objects to concatenate"
  | _ :: _ =>
      .ok ⟨(dfs.map DataFrame.nrows).sum,
        (unionNames dfs).map (fun n =>
          ⟨n, "object", (dfs.map (fun df => colCellsOrNull df n)).flatten⟩)⟩

/-- The loop plus pd.concat of transform_and_union (src/main.py lines
88-106): per-file processing in glob order, then concatenation.  The sort
and the spreadsheet write follow (modelled separately - see
SortValuesResult). -/
def transform_and_union_combined (files : List (String × DataFrame)) :
    Except String DataFrame :=
  match mapE (fun pr => processFile pr.1 pr.2) files with
  | .error e => .error e
  | .ok dfs => pdConcat dfs

/-- A row of a DataFrame as an association list from column name to cell
value, the cross-section sort_values permutes. -/
def rowsOf (df : DataFrame) : List (List (String × Value)) :=
  (List.range df.nrows).map (fun i =>
    df.cols.map (fun c => (c.name, c.cells.getD i Value.null)))

/-- The sort key of a row: its Month/Year cell when it holds a date;
null/missing counts as NaN. -/
def rowKey (r : List (String × Value)) : Option MYDate :=
  match r.lookup "Month/Year" with
  | some (Value.date d) => some d
  | _ => none

/-- The ordering sort_values(by="Month/Year") establishes with the default
na_position="last": dates ascending, and no row with a null key before a
row with a date. -/
def keyLE (r1 r2 : List (String × Value)) : Prop :=
  match rowKey r1, rowKey r2 with
  | some d1, some d2 => myDateLE d1 d2 = true
  | some _, none => True
  | none, none => True
  | none, some _ => False

instance (r1 r2 : List (String × Value)) : Decidable (keyLE r1 r2) := by
  unfold keyLE
  exact match rowKey r1, rowKey r2 with
  | some d1, some d2 => inferInstanceAs (Decidable (myDateLE d1 d2 = true))
  | some _, none => inferInstanceAs (Decidable True)
  | none, none => inferInstanceAs (Decidable True)
  | none, some _ => inferInstanceAs (Decidable False)

/-- The contract of combined_df.sort_values(by="Month/Year") (src/main.py
line 107), modelled from the pandas documentation of the default kind
"quicksort": the result is SOME permutation of the rows that is
non-decreasing in the key with nulls last.  The documentation guarantees
no more: quicksort is not a stable kind, so which of the qualifying
permutations is produced is unspecified, and every theorem about the sort
quantifies over all of them. -/
def SortValuesResult (inp out : List (List (String × Value))) : Prop :=
  inp.Perm out ∧ out.Pairwise keyLE

/-- The end-to-end contract of CSVTransformer.transform_and_union
(src/main.py lines 88-109) up to the spreadsheet write: the written rows
are a sorted permutation of the concatenated per-file rows. -/
def TransformUnionResult (files : List (String × DataFrame))
    (out : List (List (String × Value))) : Prop :=
  ∃ c, transform_and_union_combined files = .ok c ∧
    SortValuesResult (rowsOf c) out

/-- Row-subsequence equality at every key value: the formal statement of
"ties keep their original relative order" (a sort of inp is stable exactly
when filtering inp and out by any one key yields the same list). -/
def StableFor (inp out : List (List (String × Value))) : Prop :=
  ∀ k : Option MYDate,
    out.filter (fun r => rowKey r = k) = inp.filter (fun r => rowKey r = k)

/-- A one-row February file for the union witnesses. -/
def unionWitDF1 : DataFrame :=
  ⟨1, [⟨"destinationLonLat", "object", [.str "1.0,2.0"]⟩,
       ⟨"completionLonLat", "object", [.str "1.0,2.0"]⟩,
       ⟨"startLonLat", "object", [.str "1.0,2.0"]⟩,
       ⟨"departureLonLat", "object", [.str "1.0,2.0"]⟩,
       ⟨"arrivalLonLat", "object", [.str "1.0,2.0"]⟩,
       ⟨"taskDetails", "object", [.str "total: $3.50"]⟩]⟩

/-- A two-row January file for the union witnesses. -/
def unionWitDF2 : DataFrame :=
  ⟨2, [⟨"destinationLonLat", "object", [.str "1.0,2.0", .str "3.0,4.0"]⟩,
       ⟨"completionLonLat", "object", [.str "1.0,2.0", .str "3.0,4.0"]⟩,
       ⟨"startLonLat", "object", [.str "1.0,2.0", .str "3.0,4.0"]⟩,
       ⟨"departureLonLat", "object", [.str "1.0,2.0", .str "3.0,4.0"]⟩,
       ⟨"arrivalLonLat", "object", [.str "1.0,2.0", .str "3.0,4.0"]⟩,
       ⟨"taskDetails", "object", [.null, .str "no amount"]⟩]⟩

/-- Two concrete input files, February before January in glob order. -/
def unionWitFiles : List (String × DataFrame) :=
  [("data/a_feb.csv", unionWitDF1), ("data/b_jan.csv", unionWitDF2)]

/-- The concatenated frame for the union witnesses. -/
def unionWitCombined : DataFrame :=
  okD (transform_and_union_combined unionWitFiles) ⟨0, []⟩

/-- A sorted output: the two January rows, then the February row. -/
def unionWitOut : List (List (String × Value)) :=
  [(rowsOf unionWitCombined).getD 1 [], (rowsOf unionWitCombined).getD 2 [],
   (rowsOf unionWitCombined).getD 0 []]

/-- A single January file with two distinguishable rows sharing one
Month/Year key, for the C3 counterexample. -/
def c3CexDF : DataFrame :=
  ⟨2, [⟨"destinationLonLat", "object", [.str "1.0,2.0", .str "3.0,4.0"]⟩,
       ⟨"completionLonLat", "object", [.str "1.0,2.0", .str "3.0,4.0"]⟩,
       ⟨"startLonLat", "object", [.str "1.0,2.0", .str "3.0,4.0"]⟩,
       ⟨"departureLonLat", "object", [.str "1.0,2.0", .str "3.0,4.0"]⟩,
       ⟨"arrivalLonLat", "object", [.str "1.0,2.0", .str "3.0,4.0"]⟩,
       ⟨"id", "int64", [.num 1, .num 2]⟩,
       ⟨"taskDetails", "object", [.null, .null]⟩]⟩

/-- The C3 counterexample input: one file, every row keyed January 2023. -/
def c3CexFiles : List (String × DataFrame) := [("data/x_jan.csv", c3CexDF)]

/-- Its concatenated frame. -/
def c3CexCombined : DataFrame :=
  okD (transform_and_union_combined c3CexFiles) ⟨0, []⟩

/-- The reversed row order: with all keys equal it is sorted, so it is a
legitimate sort_values outcome under the unstable default quicksort. -/
def c3CexOut : List (List (String × Value)) := (rowsOf c3CexCombined).reverse

/-- A single input file whose token "foo" has no parseable month. -/
def c8WitFiles : List (String × DataFrame) := [("data/x_foo.csv", unionWitDF1)]

/-- Its concatenated frame. -/
def c8WitCombined : DataFrame :=
  okD (transform_and_union_combined c8WitFiles) ⟨0, []⟩

/-- Its rows in concatenation order (already sorted: every key is null). -/
def c8WitOut : List (List (String × Value)) := rowsOf c8WitCombined

/-- The distinct values of a column in first-seen order (the groupby
order underlying value_counts). -/
def distinctFirstSeen (cells : List Value) : List Value :=
  cells.foldl (fun acc v => if acc.contains v then acc else acc ++ [v]) []

/-- Number of occurrences of one value down a column. -/
def countOf (cells : List Value) (v : Value) : Nat :=
  cells.countP (fun w => w == v)

/-- Insert into a count-descending list, after any entry with a greater or
equal count. -/
def insertByCount (p : Value × Nat) : List (Value × Nat) → List (Value × Nat)
  | [] => [p]
  | q :: t => if p.2 > q.2 then p :: q :: t else q :: insertByCount p t

/-- Sort value/count pairs by count descending. -/
def sortByCountDesc : List (Value × Nat) → List (Value × Nat)
  | [] => []
  | p :: t => insertByCount p (sortByCountDesc t)

/-- Series.value_counts(dropna=False): distinct values with their counts,
most frequent first.  The tie order among equal counts is an artifact of
the counting implementation; the model realizes one order, and no claim
depends on it. -/
def value_counts (cells : List Value) : List (Value × Nat) :=
  sortByCountDesc ((distinctFirstSeen cells).map (fun v => (v, countOf cells v)))

/-- The label a bucket gets in the report: nulls are bucketed under the
literal "NA" (counts.index.fillna), other values render as Python str. -/
def renderValue : Value → String
  | .null => "NA"
  | v => pyStrOfValue v

/-- Model of CSVValidator.format_top_values (lines 119-123): the five
most frequent distinct values, rendered "value (count)" and joined with
comma-space. -/
def format_top_values (cells : List Value) : String :=
  ", ".intercalate (((value_counts cells).take 5).map
    (fun p => renderValue p.1 ++ " (" ++ toString p.2 ++ ")"))

/-- The frame as the validator sees it: the raw (un-normalized) read_csv
frame with the Month/Year column attached (line 132). -/
def validatorFrame (path : String) (df : DataFrame) : DataFrame :=
  setCol df "Month/Year" "object"
    (List.replicate df.nrows (optDateValue (extract_month_year_from_filename path)))

/-- The (column name, dtype string) observations of one file, in column
order - what the loop at lines 134-136 records. -/
def fileObs (path : String) (df : DataFrame) : List (String × String) :=
  (validatorFrame path df).cols.map (fun c => (c.name, c.dtype))

/-- The type of self.all_columns: column name to dtype string to the
contributing basenames. -/
abbrev AllCols := List (String × List (String × List String))

/-- Python set.add on the file set, modelled as an insertion-ordered
duplicate-free list (set iteration order is unspecified; every claim about
the set is membership-level). -/
def addFileToSet (fs : List String) (f : String) : List String :=
  if fs.contains f then fs else fs ++ [f]

/-- One observation into the per-column map: find the dtype bucket (or
append a fresh one) and add the file. -/
def addObsType (dt f : String) : List (String × List String) → List (String × List String)
  | [] => [(dt, [f])]
  | (d, fs) :: rest =>
      if d == dt then (d, addFileToSet fs f) :: rest
      else (d, fs) :: addObsType dt f rest

/-- One observation into all_columns: find the column entry (or append a
fresh one) and record the dtype/file. -/
def addObs (col dt f : String) : AllCols → AllCols
  | [] => [(col, [(dt, [f])])]
  | (c, ti) :: rest =>
      if c == col then (c, addObsType dt f ti) :: rest
      else (c, ti) :: addObs col dt f rest

/-- All (column, dtype, basename) observations of a run, in loop order. -/
def obsList (files : List (String × DataFrame)) : List (String × String × String) :=
  (files.map (fun pr =>
    (fileObs pr.1 pr.2).map (fun cd => (cd.1, cd.2, basename pr.1)))).flatten

/-- The all_columns fold at the observation level. -/
def buildA (obs : List (String × String × String)) : AllCols :=
  obs.foldl (fun ac o => addObs o.1 o.2.1 o.2.2 ac) []

/-- self.all_columns after the get_file_stats loop (lines 134-135). -/
def allColumnsOf (files : List (String × DataFrame)) : AllCols :=
  buildA (obsList files)

/-- self.top_values after the loop (line 136): (column, basename) to the
rendered top-5 string. -/
def topValuesOf (files : List (String × DataFrame)) :
    List ((String × String) × String) :=
  (files.map (fun pr =>
    (validatorFrame pr.1 pr.2).cols.map
      (fun c => ((c.name, basename pr.1), format_top_values c.cells)))).flatten

/-- defaultdict(str) lookup: the recorded string, or "" when absent. -/
def lookupTop (tvs : List ((String × String) × String)) (col f : String) : String :=
  match tvs.find? (fun e => e.1.1 == col && e.1.2 == f) with
  | some e => e.2
  | none => ""

/-- One row of the File_Stats sheet (lines 138-146). -/
structure StatsRow where
  filename : String
  month_year : Option MYDate
  num_columns : Nat
  num_records : Nat
  columns : List String
  deriving DecidableEq, Repr

/-- The stats record of one file. -/
def mkStatsRow (path : String) (df : DataFrame) : StatsRow :=
  ⟨basename path, extract_month_year_from_filename path,
   (validatorFrame path df).cols.length, (validatorFrame path df).nrows,
   (validatorFrame path df).cols.map Col.name⟩

/-- month_year ordering with nulls last, as sort_values uses. -/
def statsKeyLE (a b : StatsRow) : Bool :=
  match a.month_year, b.month_year with
  | some d1, some d2 => myDateLE d1 d2
  | some _, none => true
  | none, none => true
  | none, some _ => false

/-- Insertion step of an ascending sort by month_year. -/
def insertStats (r : StatsRow) : List StatsRow → List StatsRow
  | [] => [r]
  | s :: t => if statsKeyLE s r then s :: insertStats r t else r :: s :: t

/-- An ascending realization of sort_values(by="month_year"); the default
quicksort's tie order is unspecified, the model picks one qualifying
order, and no claim depends on it. -/
def sortStats : List StatsRow → List StatsRow
  | [] => []
  | r :: t => insertStats r (sortStats t)

/-- Model of CSVValidator.get_file_stats (lines 125-148): one stats row
per file, sorted by month_year.  With zero matched files the DataFrame
has no columns at all, and sort_values(by="month_year") raises a
KeyError - the Except error. -/
def get_file_stats (files : List (String × DataFrame)) :
    Except String (List StatsRow) :=
  match files with
  | [] => .error "KeyError: month_year"
  | _ :: _ => .ok (sortStats (files.map (fun pr => mkStatsRow pr.1 pr.2)))

/-- One row of the Discrepancies sheet (lines 158-163). -/
structure DiscRow where
  column : String
  dataType : String
  files : List String
  topValues : String
  deriving DecidableEq, Repr

/-- Model of CSVValidator.get_discrepancies (lines 150-165), reading the
state get_file_stats built: for every column whose type_info has two or
more dtype buckets, one row per (column, dtype) listing the contributing
files and their per-file top-5 strings.  The source joins the Files set
into a comma string (unspecified set order); the model keeps the list in
insertion order. -/
def discEntry (tvs : List ((String × String) × String)) (c : String)
    (ti : List (String × List String)) : List DiscRow :=
  if 1 < ti.length then
    ti.map (fun dt =>
      (⟨c, dt.1, dt.2,
        ", ".intercalate (dt.2.map (fun f =>
          f ++ ": [" ++ lookupTop tvs c f ++ "]"))⟩ : DiscRow))
  else []

def discRowsOf (tvs : List ((String × String) × String)) (ac : AllCols) : List DiscRow :=
  (ac.map (fun pr => discEntry tvs pr.1 pr.2)).flatten

def get_discrepancies (files : List (String × DataFrame)) : List DiscRow :=
  discRowsOf (topValuesOf files) (allColumnsOf files)

/-- First-seen duplicate removal. -/
def dedupFS (l : List String) : List String :=
  l.foldl (fun acc x => if x ∈ acc then acc else acc ++ [x]) []

/-- The distinct dtype strings of the observations of one column, in
first-seen order. -/
def typesOfObs (obs : List (String × String × String)) (col : String) : List String :=
  dedupFS ((obs.filter (fun o => o.1 == col)).map (fun o => o.2.1))

/-- The distinct dtype strings observed for a column across the run, in
first-seen order. -/
def typesOf (files : List (String × DataFrame)) (col : String) : List String :=
  typesOfObs (obsList files) col

/-- Association lookup matching the key comparisons of addObs/addObsType. -/
def alookup {β : Type} (k : String) : List (String × β) → Option β
  | [] => none
  | (k1, v) :: t => if k1 == k then some v else alookup k t

/-- What the all_columns fold maintains: duplicate-free column keys, per
column the dtype bucket keys in first-seen order and duplicate-free, and
per (column, dtype) bucket exactly the set of observed files. -/
def AInv (obs : List (String × String × String)) (ac : AllCols) : Prop :=
  (ac.map Prod.fst).Nodup ∧
  ∀ col : String,
    ((alookup col ac).getD []).map Prod.fst = typesOfObs obs col ∧
    (((alookup col ac).getD []).map Prod.fst).Nodup ∧
    ∀ dt : String,
      (∀ fs, alookup dt ((alookup col ac).getD []) = some fs →
        fs.Nodup ∧ ∀ f : String, (f ∈ fs ↔ (col, dt, f) ∈ obs)) ∧
      (alookup dt ((alookup col ac).getD []) = none →
        ∀ f : String, (col, dt, f) ∉ obs)

/-- Two files disagreeing on the dtype of column amt. -/
def c6WitFiles : List (String × DataFrame) :=
  [("data/a_feb.csv", ⟨1, [⟨"amt", "int64", [.num 3]⟩]⟩),
   ("data/b_jan.csv", ⟨1, [⟨"amt", "object", [.str "3"]⟩]⟩)]

example : extract_month_year_from_filename "x_jan.csv" = some ⟨2023, 1⟩ := by decide

example : extract_month_year_from_filename "x_jan24.csv" = some ⟨2024, 1⟩ := by decide

example : extract_month_year_from_filename "x_JLY.csv" = some ⟨2023, 7⟩ := by decide

example : extract_month_year_from_filename "data/x_may.csv" = some ⟨2023, 5⟩ := by decide

example : extract_month_year_from_filename "x_foo.csv" = none := by decide

example : extract_month_year_from_filename "x_2424.csv" = none := by decide

/-- C1 counterexample: "x_jly24.csv" is a valid filename whose month token
"jly24" ends in "24", so the claim demands year 2024; the code first
collapses any "jly"-prefixed token to exactly "jul", discarding the "24"
suffix, and returns July 2023. -/
theorem c1_counterexample :
    rawToken "x_jly24.csv" = "jly24" ∧
    endsWithChars "24".data "jly24".data = true ∧
    extract_month_year_from_filename "x_jly24.csv" = some ⟨2023, 7⟩ := by
  decide

/-- C1 amended: for a valid filename X_<mon>.csv, the extracted date has the
canonicalized month of <mon> and year 2024 exactly when the token ends in
"24" and does not begin with "jly"; any token beginning with "jly" (with or
without the "24" suffix) is collapsed to "jul" and yields July 2023. -/
theorem c1_amended :
    (∀ f i, i < 12 →
        lowerChars (rawToken f).data = (monthAbbrevs.getD i "").data →
        extract_month_year_from_filename f = some ⟨2023, i + 1⟩) ∧
    (∀ f i, i < 12 →
        lowerChars (rawToken f).data = (monthAbbrevs.getD i "").data ++ "24".data →
        extract_month_year_from_filename f = some ⟨2024, i + 1⟩) ∧
    (∀ f, ("jly".data).isPrefixOf (lowerChars (rawToken f).data) = true →
        extract_month_year_from_filename f = some ⟨2023, 7⟩) := by
  refine ⟨?_, ?_, ?_⟩
  · intro f i hi h
    simp only [extract_month_year_from_filename, canonMonth, h]
    interval_cases i <;> decide
  · intro f i hi h
    simp only [extract_month_year_from_filename, canonMonth, h]
    interval_cases i <;> decide
  · intro f h
    simp only [extract_month_year_from_filename, canonMonth]
    rw [h, if_pos rfl]
    decide

/-- C1 amended witness: the amended theorem applied at the concrete
filename "report_mar.csv" (month token "mar"). -/
theorem c1_amended_witness :
    extract_month_year_from_filename "report_mar.csv" = some ⟨2023, 3⟩ :=
  c1_amended.1 "report_mar.csv" 2 (by decide) (by decide)

example : extract_total_from_task_details (.str "total: $1,234.56") = mkRat 123456 100 := by decide

example : extract_total_from_task_details (.str "Total : $99.00") = 99 := by decide

example : extract_total_from_task_details (.str "subtotal: $5.00") = 0 := by decide

example : extract_total_from_task_details (.str "total abc: $5.00") = 5 := by decide

example : extract_total_from_task_details (.str "total: $1.234") = mkRat 123 100 := by decide

example : extract_total_from_task_details (.str "total ab : cd : $1.00") = 1 := by decide

example : extract_total_from_task_details (.str "total: $a : $3.00") = 3 := by decide

example : extract_total_from_task_details (.str "total: $,,.50") = mkRat 1 2 := by decide

example : extract_total_from_task_details (.str "my total: $1.00 and total: $2.00") = 1 := by decide

example : extract_total_from_task_details (.str "total:$7.77") = mkRat 777 100 := by decide

example : extract_total_from_task_details (.str "total9: $1.00") = 0 := by decide

example : extract_total_from_task_details (.str "TOTAL:  $0.10") = mkRat 1 10 := by decide

example : extract_total_from_task_details (.str "total: $ 1.00") = 0 := by decide

example : extract_total_from_task_details (.str "total x1: $2.00") = 0 := by decide

example : extract_total_from_task_details (.str "total: $1,2.00 : $3.00") = 12 := by decide

example : extract_total_from_task_details .null = 0 := by decide

example : extract_total_from_task_details (.num 7) = 0 := by decide

lemma isDigitComma_ne_colon {c : Char} (h : isDigitComma c = true) : c ≠ ':' := by
  intro hc; rw [hc] at h; exact absurd h (by decide)

lemma isDigitComma_ne_dot {c : Char} (h : isDigitComma c = true) : c ≠ '.' := by
  intro hc; rw [hc] at h; exact absurd h (by decide)

lemma isDigitComma_ne_comma_of_digit {c : Char} (h : c.isDigit = true) : c ≠ ',' := by
  intro hc; rw [hc] at h; exact absurd h (by decide)

lemma isDigit_ne_colon {c : Char} (h : c.isDigit = true) : c ≠ ':' := by
  intro hc; rw [hc] at h; exact absurd h (by decide)

lemma isDigit_ne_dot {c : Char} (h : c.isDigit = true) : c ≠ '.' := by
  intro hc; rw [hc] at h; exact absurd h (by decide)

lemma takeWhile_append_of_all (p : Char → Bool) (l r : List Char)
    (hl : ∀ c ∈ l, p c = true) :
    (l ++ r).takeWhile p = l ++ r.takeWhile p := by
  induction l with
  | nil => simp
  | cons c t ih =>
      have hc : p c = true := hl c (List.mem_cons_self c t)
      simp only [List.cons_append, List.takeWhile_cons, hc, if_true]
      rw [ih (fun x hx => hl x (List.mem_cons_of_mem c hx))]

lemma takeWhile_cons_of_false (p : Char → Bool) (c : Char) (r : List Char)
    (hc : p c = false) : (c :: r).takeWhile p = [] := by
  simp [List.takeWhile_cons, hc]

lemma splitOnChar_of_no_sep (sep : Char) (l : List Char)
    (h : ∀ c ∈ l, c ≠ sep) : splitOnChar sep l = [l] := by
  induction l with
  | nil => rfl
  | cons c t ih =>
      have hc : c ≠ sep := h c (List.mem_cons_self c t)
      have ht := ih (fun x hx => h x (List.mem_cons_of_mem c hx))
      simp only [splitOnChar, ht, if_neg hc]

lemma splitOnChar_append_sep (sep : Char) (l r : List Char)
    (hl : ∀ c ∈ l, c ≠ sep) (hr : ∀ c ∈ r, c ≠ sep) :
    splitOnChar sep (l ++ sep :: r) = [l, r] := by
  induction l with
  | nil => simp [splitOnChar, splitOnChar_of_no_sep sep r hr]
  | cons c t ih =>
      have hc : c ≠ sep := hl c (List.mem_cons_self c t)
      have ht := ih (fun x hx => hl x (List.mem_cons_of_mem c hx))
      simp only [List.cons_append, splitOnChar, if_neg hc]
      rw [show t.append (sep :: r) = t ++ sep :: r from rfl, ht]

lemma colonAt_none_of_no_colon (s : List Char)
    (h : ∀ x ∈ s.drop 1, x ≠ ':') (j : Nat) (hj : 1 ≤ j) :
    colonAt s j = none := by
  unfold colonAt
  cases hdrop : s.drop j with
  | nil => rfl
  | cons c rest =>
      have hmem : c ∈ s.drop 1 := by
        have h1 : s.drop j = (s.drop 1).drop (j - 1) := by
          rw [List.drop_drop]; congr 1; omega
        have : c ∈ (s.drop 1).drop (j - 1) := by
          rw [← h1, hdrop]; exact List.mem_cons_self c rest
        exact List.drop_subset _ _ this
      simp [h c hmem]

lemma tryColons_eq_colonAt_zero (s : List Char)
    (h : ∀ x ∈ s.drop 1, x ≠ ':') : ∀ n, tryColons s n = colonAt s 0 := by
  intro n
  induction n with
  | zero => rfl
  | succ m ih =>
      unfold tryColons
      rw [colonAt_none_of_no_colon s h (m + 1) (by omega)]
      simpa [Option.orElse] using ih

lemma not_prefix_of_not_contains (l : List Char)
    (h : containsSub "total".data l = false) :
    ("total".data).isPrefixOf l = false := by
  cases l with
  | nil => decide
  | cons c t =>
      unfold containsSub at h
      exact (Bool.or_eq_false_iff.mp h).1

lemma searchTotalGo_none_of_not_contains :
    ∀ (s : List Char) (prev : Option Char),
      containsSub "total".data (lowerChars s) = false →
      searchTotalGo prev s = none := by
  intro s
  induction s with
  | nil => intro prev _; rfl
  | cons c t ih =>
      intro prev h
      rw [show lowerChars (c :: t) = Char.toLower c :: lowerChars t from rfl] at h
      have hpre : ciPrefixTotal (c :: t) = false := by
        unfold ciPrefixTotal
        rw [show lowerChars (c :: t) = Char.toLower c :: lowerChars t from rfl]
        exact not_prefix_of_not_contains _ h
      have htail : containsSub "total".data (lowerChars t) = false := by
        unfold containsSub at h
        exact (Bool.or_eq_false_iff.mp h).2
      unfold searchTotalGo
      rw [hpre]
      simp only [Bool.and_false, Bool.false_and, Bool.false_eq_true, if_false]
      exact ih (some c) htail

lemma matchAmount_computes (ip : List Char) (d1 d2 : Char)
    (hne : ip ≠ []) (hip : ∀ c ∈ ip, isDigitComma c = true)
    (h1 : d1.isDigit = true) (h2 : d2.isDigit = true) :
    matchAmount (' ' :: '$' :: (ip ++ ['.', d1, d2])) =
      some (ip ++ ['.', d1, d2]) := by
  have hrun : (ip ++ ['.', d1, d2]).takeWhile isDigitComma = ip := by
    rw [takeWhile_append_of_all _ _ _ hip,
        takeWhile_cons_of_false _ _ _ (by decide), List.append_nil]
  have hempty : ip.isEmpty = false := by
    cases ip with
    | nil => exact absurd rfl hne
    | cons a b => rfl
  have hdrop : (ip ++ ['.', d1, d2]).drop ip.length = ['.', d1, d2] :=
    List.drop_left _ _
  unfold matchAmount
  rw [show (' ' :: '$' :: (ip ++ ['.', d1, d2])).dropWhile isSpaceChar
        = '$' :: (ip ++ ['.', d1, d2]) from rfl]
  simp only [if_pos rfl, hrun, hempty, Bool.false_eq_true, if_false, hdrop,
    h1, h2, Bool.and_true]
  simp

lemma afterTotal_computes (ip : List Char) (d1 d2 : Char)
    (hne : ip ≠ []) (hip : ∀ c ∈ ip, isDigitComma c = true)
    (h1 : d1.isDigit = true) (h2 : d2.isDigit = true) :
    afterTotalMatch (':' :: ' ' :: '$' :: (ip ++ ['.', d1, d2])) =
      some (ip ++ ['.', d1, d2]) := by
  have hnc : ∀ x ∈ (':' :: ' ' :: '$' :: (ip ++ ['.', d1, d2])).drop 1, x ≠ ':' := by
    intro x hx
    simp only [List.drop_one, List.tail_cons, List.mem_cons, List.mem_append] at hx
    rcases hx with h | h | h | h
    · rw [h]; decide
    · rw [h]; decide
    · exact isDigitComma_ne_colon (hip x h)
    · simp only [List.mem_cons, List.not_mem_nil, or_false] at h
      rcases h with h | h | h
      · rw [h]; decide
      · rw [h]; exact isDigit_ne_colon h1
      · rw [h]; exact isDigit_ne_colon h2
  unfold afterTotalMatch
  rw [tryColons_eq_colonAt_zero _ hnc]
  show (if ':' = ':' then matchAmount (' ' :: '$' :: (ip ++ ['.', d1, d2]))
        else none) = some (ip ++ ['.', d1, d2])
  rw [if_pos rfl]
  exact matchAmount_computes ip d1 d2 hne hip h1 h2

lemma searchTotal_family (ip : List Char) (d1 d2 : Char)
    (hne : ip ≠ []) (hip : ∀ c ∈ ip, isDigitComma c = true)
    (h1 : d1.isDigit = true) (h2 : d2.isDigit = true) :
    searchTotal (String.mk ("total: $".data ++ ip ++ ['.', d1, d2])) =
      some (ip ++ ['.', d1, d2]) := by
  have key := afterTotal_computes ip d1 d2 hne hip h1 h2
  have step : searchTotal (String.mk ("total: $".data ++ ip ++ ['.', d1, d2]))
      = match afterTotalMatch (':' :: ' ' :: '$' :: (ip ++ ['.', d1, d2])) with
        | some g => some g
        | none =>
            searchTotalGo (some 't')
              ('o' :: 't' :: 'a' :: 'l' :: ':' :: ' ' :: '$' :: (ip ++ ['.', d1, d2])) := rfl
  rw [step, key]

lemma decimalValue_family (ip : List Char) (d1 d2 : Char)
    (hip : ∀ c ∈ ip, isDigitComma c = true)
    (h1 : d1.isDigit = true) (h2 : d2.isDigit = true) :
    decimalValue (ip ++ ['.', d1, d2]) =
      mkRat (digitsToNat (ip.filter (fun c => c ≠ ',')) * 100 + digitsToNat [d1, d2]) 100 := by
  have hfl : ∀ c ∈ ip.filter (fun c => c ≠ ','), c ≠ '.' := by
    intro c hc
    exact isDigitComma_ne_dot (hip c (List.mem_of_mem_filter hc))
  have hfr : ∀ c ∈ [d1, d2], c ≠ '.' := by
    intro c hc
    simp only [List.mem_cons, List.not_mem_nil, or_false] at hc
    rcases hc with h | h
    · rw [h]; exact isDigit_ne_dot h1
    · rw [h]; exact isDigit_ne_dot h2
  have hstep : decimalValue (ip ++ ['.', d1, d2])
      = match splitOnChar '.' ((ip ++ ['.', d1, d2]).filter (fun c => c ≠ ',')) with
        | [ip2, fp] => mkRat (digitsToNat ip2 * 10 ^ fp.length + digitsToNat fp) (10 ^ fp.length)
        | _ => 0 := rfl
  rw [hstep, List.filter_append,
      show ['.', d1, d2].filter (fun c => c ≠ ',') = '.' :: [d1, d2] from by
        simp [List.filter_cons, isDigitComma_ne_comma_of_digit h1,
          isDigitComma_ne_comma_of_digit h2],
      splitOnChar_append_sep '.' _ [d1, d2] hfl hfr]
  norm_num

/-- C5 counterexample: "subtotal: $5.00" contains, verbatim, the substring
"total: $5.00" - the word "total" followed by a colon, a space and a dollar
amount - so the claim demands 5.00; the regex requires a word boundary
before "total" (r"\btotal\b"), the preceding "b" of "subtotal" is a word
character, and the code returns 0.0. -/
theorem c5_counterexample :
    containsSub "total: $5.00".data "subtotal: $5.00".data = true ∧
    extract_total_from_task_details (Value.str "subtotal: $5.00") = 0 := by
  decide

lemma isDigitComma_of_digit {c : Char} (h : c.isDigit = true) : isDigitComma c = true := by
  unfold isDigitComma
  rw [h]
  rfl

lemma isSpaceChar_not_digit {c : Char} (h : isSpaceChar c = true) : c.isDigit = false := by
  unfold isSpaceChar at h
  simp only [Bool.or_eq_true, decide_eq_true_eq] at h
  rcases h with ((((h | h) | h) | h) | h) | h <;> subst h <;> decide

lemma isSpaceChar_ne_colon {c : Char} (h : isSpaceChar c = true) : c ≠ ':' := by
  intro hc
  rw [hc] at h
  exact absurd h (by decide)

lemma isPrefixOf_append_self (l t : List Char) : l.isPrefixOf (l ++ t) = true :=
  List.isPrefixOf_iff_prefix.mpr (List.prefix_append l t)

lemma dropWhile_append_of_all (p : Char → Bool) (l r : List Char)
    (hl : ∀ c ∈ l, p c = true) : (l ++ r).dropWhile p = r.dropWhile p := by
  induction l with
  | nil => simp
  | cons c t ih =>
      have hc : p c = true := hl c (List.mem_cons_self c t)
      simp only [List.cons_append, List.dropWhile_cons, hc, if_true]
      exact ih (fun x hx => hl x (List.mem_cons_of_mem c hx))

lemma drop_append_length_add {α : Type} :
    ∀ (l1 l2 : List α) (m : Nat), (l1 ++ l2).drop (l1.length + m) = l2.drop m := by
  intro l1
  induction l1 with
  | nil => intro l2 m; simp
  | cons a t ih =>
      intro l2 m
      show (a :: (t ++ l2)).drop (t.length + 1 + m) = l2.drop m
      rw [show t.length + 1 + m = (t.length + m) + 1 from by omega, List.drop_succ_cons]
      exact ih l2 m

lemma take_append_length_add {α : Type} :
    ∀ (l1 l2 : List α) (m : Nat), (l1 ++ l2).take (l1.length + m) = l1 ++ l2.take m := by
  intro l1
  induction l1 with
  | nil => intro l2 m; simp
  | cons a t ih =>
      intro l2 m
      show (a :: (t ++ l2)).take (t.length + 1 + m) = a :: (t ++ l2.take m)
      rw [show t.length + 1 + m = (t.length + m) + 1 from by omega, List.take_succ_cons]
      rw [ih l2 m]

lemma colonAt_none_of_take :
    ∀ (s : List Char) (m j : Nat), (∀ x ∈ s.take m, x ≠ ':') → j < m →
      colonAt s j = none := by
  intro s
  induction s with
  | nil =>
      intro m j _ _
      unfold colonAt
      rw [List.drop_nil]
  | cons c t ih =>
      intro m j h hj
      cases j with
      | zero =>
          have hc : c ∈ (c :: t).take m := by
            cases m with
            | zero => omega
            | succ m1 => rw [List.take_succ_cons]; exact List.mem_cons_self c _
          unfold colonAt
          rw [List.drop_zero]
          simp [h c hc]
      | succ j1 =>
          cases m with
          | zero => omega
          | succ m1 =>
              have hstep : colonAt (c :: t) (j1 + 1) = colonAt t j1 := by
                unfold colonAt
                rw [List.drop_succ_cons]
              rw [hstep]
              exact ih m1 j1
                (fun x hx => h x (by rw [List.take_succ_cons]; exact List.mem_cons_of_mem c hx))
                (by omega)

lemma tryColons_down_to (s : List Char) :
    ∀ (n j : Nat), j ≤ n → (∀ k, j < k → k ≤ n → colonAt s k = none) →
      tryColons s n = tryColons s j := by
  intro n
  induction n with
  | zero =>
      intro j hj _
      rw [show j = 0 from by omega]
  | succ m ih =>
      intro j hj hnone
      by_cases hjm : j = m + 1
      · rw [hjm]
      · have h1 : colonAt s (m + 1) = none := hnone (m + 1) (by omega) (Nat.le_refl _)
        rw [show tryColons s (m + 1)
            = (colonAt s (m + 1)).orElse (fun _ => tryColons s m) from rfl, h1]
        rw [show (none.orElse (fun _ => tryColons s m)) = tryColons s m from rfl]
        exact ih j (by omega) (fun k hk1 hk2 => hnone k hk1 (by omega))

lemma tryColons_hit (s : List Char) (n : Nat) (g : List Char)
    (h : colonAt s n = some g) : tryColons s n = some g := by
  cases n with
  | zero => exact h
  | succ m =>
      rw [show tryColons s (m + 1)
          = (colonAt s (m + 1)).orElse (fun _ => tryColons s m) from rfl, h]
      rfl

lemma matchAmount_general (ws rtl suf : List Char) (r0 d1 d2 : Char)
    (hws : ∀ c ∈ ws, isSpaceChar c = true)
    (hr0 : r0.isDigit = true) (hrtl : ∀ c ∈ rtl, isDigitComma c = true)
    (h1 : d1.isDigit = true) (h2 : d2.isDigit = true) :
    matchAmount (ws ++ ('$' :: ((r0 :: rtl) ++ ('.' :: d1 :: d2 :: suf)))) =
      some ((r0 :: rtl) ++ ['.', d1, d2]) := by
  have hipall : ∀ c ∈ r0 :: rtl, isDigitComma c = true := by
    intro c hc
    rcases List.mem_cons.mp hc with h | h
    · subst h; exact isDigitComma_of_digit hr0
    · exact hrtl c h
  have hdw : (ws ++ ('$' :: ((r0 :: rtl) ++ ('.' :: d1 :: d2 :: suf)))).dropWhile isSpaceChar
      = '$' :: ((r0 :: rtl) ++ ('.' :: d1 :: d2 :: suf)) := by
    rw [dropWhile_append_of_all _ ws _ hws]
    rfl
  have hrun : ((r0 :: rtl) ++ ('.' :: d1 :: d2 :: suf)).takeWhile isDigitComma = r0 :: rtl := by
    rw [takeWhile_append_of_all _ _ _ hipall, takeWhile_cons_of_false _ _ _ (by decide),
      List.append_nil]
  have hdropr : ((r0 :: rtl) ++ ('.' :: d1 :: d2 :: suf)).drop (r0 :: rtl).length
      = '.' :: d1 :: d2 :: suf := List.drop_left _ _
  unfold matchAmount
  rw [hdw]
  simp only [if_pos rfl, hrun, show (r0 :: rtl).isEmpty = false from rfl,
    Bool.false_eq_true, if_false, hdropr, h1, h2, Bool.and_true]
  simp

lemma afterTotal_general (gap ws rtl suf : List Char) (r0 d1 d2 : Char)
    (hgap : ∀ c ∈ gap, c.isDigit = false)
    (hws : ∀ c ∈ ws, isSpaceChar c = true)
    (hr0 : r0.isDigit = true) (hrtl : ∀ c ∈ rtl, isDigitComma c = true)
    (h1 : d1.isDigit = true) (h2 : d2.isDigit = true) :
    afterTotalMatch (amountTail gap ws rtl suf r0 d1 d2) =
      some ((r0 :: rtl) ++ ['.', d1, d2]) := by
  have hnd_gap : ∀ c ∈ gap, (!c.isDigit) = true := fun c hc => by rw [hgap c hc]; rfl
  have hnd_ws : ∀ c ∈ ws, (!c.isDigit) = true := fun c hc => by
    rw [isSpaceChar_not_digit (hws c hc)]
    rfl
  have htw : (amountTail gap ws rtl suf r0 d1 d2).takeWhile (fun c => !c.isDigit) =
      gap ++ (':' :: (ws ++ ['$'])) := by
    unfold amountTail
    rw [takeWhile_append_of_all _ gap _ hnd_gap]
    congr 1
    rw [show (':' :: (ws ++ ('$' :: ((r0 :: rtl) ++ ('.' :: d1 :: d2 :: suf))))).takeWhile
          (fun c => !c.isDigit)
        = ':' :: ((ws ++ ('$' :: ((r0 :: rtl) ++ ('.' :: d1 :: d2 :: suf)))).takeWhile
          (fun c => !c.isDigit)) from rfl]
    congr 1
    rw [takeWhile_append_of_all _ ws _ hnd_ws]
    congr 1
    rw [show ('$' :: ((r0 :: rtl) ++ ('.' :: d1 :: d2 :: suf))).takeWhile (fun c => !c.isDigit)
        = '$' :: (((r0 :: rtl) ++ ('.' :: d1 :: d2 :: suf)).takeWhile (fun c => !c.isDigit))
        from rfl]
    rw [show ((r0 :: rtl) ++ ('.' :: d1 :: d2 :: suf)).takeWhile (fun c => !c.isDigit)
        = (r0 :: (rtl ++ ('.' :: d1 :: d2 :: suf))).takeWhile (fun c => !c.isDigit) from rfl]
    rw [takeWhile_cons_of_false _ _ _ (by rw [hr0]; rfl)]
  have hN : (gap ++ (':' :: (ws ++ ['$']))).length = gap.length + ws.length + 2 := by
    simp only [List.length_append, List.length_cons, List.length_nil]
    omega
  have hco : colonAt (amountTail gap ws rtl suf r0 d1 d2) gap.length =
      some ((r0 :: rtl) ++ ['.', d1, d2]) := by
    unfold colonAt
    rw [show (amountTail gap ws rtl suf r0 d1 d2).drop gap.length
        = ':' :: (ws ++ ('$' :: ((r0 :: rtl) ++ ('.' :: d1 :: d2 :: suf)))) from by
      unfold amountTail
      exact List.drop_left gap _]
    show (if ':' = ':' then
        matchAmount (ws ++ ('$' :: ((r0 :: rtl) ++ ('.' :: d1 :: d2 :: suf))))
      else none) = some ((r0 :: rtl) ++ ['.', d1, d2])
    rw [if_pos rfl]
    exact matchAmount_general ws rtl suf r0 d1 d2 hws hr0 hrtl h1 h2
  have habove : ∀ k, gap.length < k → k ≤ (gap ++ (':' :: (ws ++ ['$']))).length →
      colonAt (amountTail gap ws rtl suf r0 d1 d2) k = none := by
    intro k hk1 hk2
    rw [hN] at hk2
    have hshift : colonAt (amountTail gap ws rtl suf r0 d1 d2) k =
        colonAt (ws ++ ('$' :: ((r0 :: rtl) ++ ('.' :: d1 :: d2 :: suf))))
          (k - (gap.length + 1)) := by
      unfold colonAt
      rw [show (amountTail gap ws rtl suf r0 d1 d2).drop k
          = (ws ++ ('$' :: ((r0 :: rtl) ++ ('.' :: d1 :: d2 :: suf)))).drop
              (k - (gap.length + 1)) from by
        conv_lhs => rw [show k = (gap.length + 1) + (k - (gap.length + 1)) from by omega]
        rw [show amountTail gap ws rtl suf r0 d1 d2
            = (gap ++ [':']) ++ (ws ++ ('$' :: ((r0 :: rtl) ++ ('.' :: d1 :: d2 :: suf))))
            from by
          unfold amountTail
          rw [List.append_cons]]
        rw [show gap.length + 1 = (gap ++ [':']).length from by
          simp [List.length_append]]
        exact drop_append_length_add _ _ _]
    rw [hshift]
    apply colonAt_none_of_take _ (ws.length + 2) _ ?_ (by omega)
    intro x hx
    rw [show (ws ++ ('$' :: ((r0 :: rtl) ++ ('.' :: d1 :: d2 :: suf)))).take (ws.length + 2)
        = ws ++ ['$', r0] from by
      rw [take_append_length_add ws _ 2]
      rfl] at hx
    rcases List.mem_append.mp hx with h | h
    · exact isSpaceChar_ne_colon (hws x h)
    · rcases List.mem_cons.mp h with h | h
      · subst h; decide
      · rcases List.mem_cons.mp h with h | h
        · subst h; exact isDigit_ne_colon hr0
        · cases h
  unfold afterTotalMatch
  rw [htw]
  rw [tryColons_down_to _ _ gap.length (by rw [hN]; omega) habove]
  exact tryColons_hit _ _ _ hco

lemma prevOf_cons (prev : Option Char) (a : Char) (l : List Char) :
    prevOf prev (a :: l) = prevOf (some a) l := by
  cases l with
  | nil => rfl
  | cons b t =>
      unfold prevOf
      rw [List.getLast?_cons_cons]
      cases hl : (b :: t).getLast? with
      | none => simp at hl
      | some c => rfl

lemma searchTotalGo_append_skip :
    ∀ (pre : List Char) (prev : Option Char) (rest : List Char),
      (∀ i, i < pre.length →
        matchAttempt (prevOf prev (pre.take i)) ((pre ++ rest).drop i) = none) →
      searchTotalGo prev (pre ++ rest) = searchTotalGo (prevOf prev pre) rest := by
  intro pre
  induction pre with
  | nil => intro prev rest _; rfl
  | cons a t ih =>
      intro prev rest hfail
      have h0 := hfail 0 (by simp)
      rw [show prevOf prev ((a :: t).take 0) = prev from rfl] at h0
      rw [show ((a :: t) ++ rest).drop 0 = a :: (t ++ rest) from rfl] at h0
      rw [show (a :: t) ++ rest = a :: (t ++ rest) from rfl]
      rw [show searchTotalGo prev (a :: (t ++ rest)) =
          (match matchAttempt prev (a :: (t ++ rest)) with
           | some g => some g
           | none => searchTotalGo (some a) (t ++ rest)) from rfl]
      rw [h0, prevOf_cons prev a t]
      exact ih (some a) rest (fun i hi => by
        have hstep := hfail (i + 1) (by simpa using Nat.succ_lt_succ hi)
        rw [show (a :: t).take (i + 1) = a :: t.take i from rfl,
          prevOf_cons prev a (t.take i),
          show ((a :: t) ++ rest).drop (i + 1) = (t ++ rest).drop i from rfl] at hstep
        exact hstep)

lemma searchTotalGo_of_attempt (prev : Option Char) (s : List Char) (g : List Char)
    (h : matchAttempt prev s = some g) : searchTotalGo prev s = some g := by
  cases s with
  | nil =>
      exfalso
      have hnone : matchAttempt prev ([] : List Char) = none := by
        unfold matchAttempt
        rw [show ciPrefixTotal [] = false from rfl]
        simp
      rw [hnone] at h
      cases h
  | cons c rest =>
      rw [show searchTotalGo prev (c :: rest) =
          (match matchAttempt prev (c :: rest) with
           | some g => some g
           | none => searchTotalGo (some c) rest) from rfl]
      rw [h]

/-- C5 amended: null and non-text inputs give 0.0; a text with no
case-insensitive occurrence of "total" at all gives 0.0; and for every
text that decomposes as an arbitrary prefix at which no earlier match
attempt of the pattern succeeds, then a case variant of "total" under
both word boundaries, a digit-free gap, the colon, whitespace, and a
dollar amount [\d,]+.dd followed by arbitrary trailing text, the
first-matched amount is returned with thousands separators stripped and
read as an exact decimal.  (The code's pattern is both narrower than the
claim, requiring a word boundary around "total", and wider, allowing any
non-digit run between "total" and the colon.) -/
theorem c5_amended :
    extract_total_from_task_details .null = 0 ∧
    (∀ q, extract_total_from_task_details (.num q) = 0) ∧
    (∀ s, containsSub "total".data (lowerChars s.data) = false →
        extract_total_from_task_details (.str s) = 0) ∧
    (∀ (pre tot gap ws rtl suf : List Char) (r0 d1 d2 : Char),
        lowerChars tot = "total".data →
        boundaryBefore (prevOf none pre) = true →
        boundaryAfterTotal (amountTail gap ws rtl suf r0 d1 d2) = true →
        (∀ i, i < pre.length →
          matchAttempt (prevOf none (pre.take i))
            ((pre ++ (tot ++ amountTail gap ws rtl suf r0 d1 d2)).drop i) = none) →
        (∀ c ∈ gap, c.isDigit = false) →
        (∀ c ∈ ws, isSpaceChar c = true) →
        r0.isDigit = true → (∀ c ∈ rtl, isDigitComma c = true) →
        d1.isDigit = true → d2.isDigit = true →
        extract_total_from_task_details
            (.str (String.mk (pre ++ (tot ++ amountTail gap ws rtl suf r0 d1 d2)))) =
          mkRat (digitsToNat ((r0 :: rtl).filter (fun c => c ≠ ',')) * 100 +
                 digitsToNat [d1, d2]) 100) := by
  refine ⟨rfl, fun q => rfl, ?_, ?_⟩
  · intro s h
    show (match searchTotalGo none s.data with
          | some g => decimalValue g
          | none => (0 : Rat)) = (0 : Rat)
    rw [searchTotalGo_none_of_not_contains s.data none h]
  · intro pre tot gap ws rtl suf r0 d1 d2 htot hb1 hb2 hfirst hgap hws hr0 hrtl h1 h2
    have htlen : tot.length = 5 := by
      have hh := congrArg List.length htot
      simp only [lowerChars, List.length_map] at hh
      rw [hh]
      rfl
    have hdrop5 : (tot ++ amountTail gap ws rtl suf r0 d1 d2).drop 5 =
        amountTail gap ws rtl suf r0 d1 d2 := by
      rw [← htlen]
      exact List.drop_left _ _
    have hci : ciPrefixTotal (tot ++ amountTail gap ws rtl suf r0 d1 d2) = true := by
      unfold ciPrefixTotal
      rw [show lowerChars (tot ++ amountTail gap ws rtl suf r0 d1 d2)
          = lowerChars tot ++ lowerChars (amountTail gap ws rtl suf r0 d1 d2) from
        List.map_append _ _ _]
      rw [htot]
      exact isPrefixOf_append_self _ _
    have hattempt : matchAttempt (prevOf none pre)
        (tot ++ amountTail gap ws rtl suf r0 d1 d2) =
        some ((r0 :: rtl) ++ ['.', d1, d2]) := by
      unfold matchAttempt
      rw [hdrop5, hci, hb1, hb2]
      show afterTotalMatch (amountTail gap ws rtl suf r0 d1 d2) =
        some ((r0 :: rtl) ++ ['.', d1, d2])
      exact afterTotal_general gap ws rtl suf r0 d1 d2 hgap hws hr0 hrtl h1 h2
    show (match searchTotalGo none (pre ++ (tot ++ amountTail gap ws rtl suf r0 d1 d2)) with
          | some g => decimalValue g
          | none => (0 : Rat)) = _
    rw [searchTotalGo_append_skip pre none (tot ++ amountTail gap ws rtl suf r0 d1 d2) hfirst,
      searchTotalGo_of_attempt (prevOf none pre) _ _ hattempt]
    exact decimalValue_family (r0 :: rtl) d1 d2
      (fun c hc => by
        rcases List.mem_cons.mp hc with h | h
        · subst h; exact isDigitComma_of_digit hr0
        · exact hrtl c h) h1 h2

/-- C5 amended witness: the amended theorem applied to the concrete text
"subtotal: $1.23 Total amount due: $1,234.56 end" - an earlier
boundary-blocked "subtotal" occurrence, a case variant "Total", a worded
gap before the colon, and trailing text - giving the exact decimal
1234.56. -/
theorem c5_amended_witness :
    extract_total_from_task_details
        (Value.str "subtotal: $1.23 Total amount due: $1,234.56 end") =
      mkRat 123456 100 := by
  have h := c5_amended.2.2.2 "subtotal: $1.23 ".data "Total".data " amount due".data
    " ".data ",234".data " end".data '1' '5' '6'
    (by decide) (by decide) (by decide) (by decide) (by decide) (by decide)
    (by decide) (by decide) (by decide) (by decide)
  rw [show String.mk ("subtotal: $1.23 ".data ++ ("Total".data ++
        amountTail " amount due".data " ".data ",234".data " end".data '1' '5' '6'))
      = "subtotal: $1.23 Total amount due: $1,234.56 end" from by decide] at h
  rw [h]
  decide

lemma nrows_setCol (df : DataFrame) (n d : String) (cs : List Value) :
    (setCol df n d cs).nrows = df.nrows := by
  unfold setCol
  split <;> rfl

lemma hasCol_eq_isSome (df : DataFrame) (m : String) :
    hasCol df m = (getCol? df m).isSome := by
  unfold hasCol getCol?
  induction df.cols with
  | nil => rfl
  | cons c t ih =>
      simp only [List.any_cons, List.find?_cons]
      cases hc : (c.name == m) with
      | true => rfl
      | false => simpa using ih

lemma find?_map_replace_self (n d : String) (cs : List Value) :
    ∀ l : List Col, l.any (fun c => c.name == n) = true →
      (l.map (fun c => if c.name == n then (⟨n, d, cs⟩ : Col) else c)).find?
        (fun c => c.name == n) = some ⟨n, d, cs⟩ := by
  intro l
  induction l with
  | nil => intro h; simp at h
  | cons c t ih =>
      intro h
      simp only [List.any_cons, Bool.or_eq_true] at h
      cases hc : (c.name == n) with
      | true =>
          simp only [List.map_cons, hc, if_true]
          exact List.find?_cons_of_pos _ (by simp)
      | false =>
          simp only [List.map_cons, hc, if_false]
          rw [List.find?_cons_of_neg _ (by simp [hc])]
          rcases h with h | h
          · rw [hc] at h; exact absurd h (by simp)
          · exact ih h

lemma my_find?_cons_pos {α : Type} (p : α → Bool) (a : α) (l : List α)
    (h : p a = true) : List.find? p (a :: l) = some a := by
  simp [List.find?, h]

lemma my_find?_cons_neg {α : Type} (p : α → Bool) (a : α) (l : List α)
    (h : p a = false) : List.find? p (a :: l) = List.find? p l := by
  simp [List.find?, h]

lemma find?_map_replace_other (n d : String) (cs : List Value) (m : String)
    (hm : m ≠ n) :
    ∀ l : List Col,
      (l.map (fun c => if c.name == n then (⟨n, d, cs⟩ : Col) else c)).find?
        (fun c => c.name == m) = l.find? (fun c => c.name == m) := by
  intro l
  have hnm : (((⟨n, d, cs⟩ : Col).name == m)) = false :=
    beq_eq_false_iff_ne.mpr (Ne.symm hm)
  induction l with
  | nil => rfl
  | cons c t ih =>
      simp only [List.map_cons]
      by_cases hc : (c.name == n) = true
      · have hcm : (c.name == m) = false := by
          rw [beq_iff_eq] at hc
          exact beq_eq_false_iff_ne.mpr (hc ▸ Ne.symm hm)
        rw [if_pos hc,
            my_find?_cons_neg (fun c : Col => c.name == m) _ _ hnm,
            my_find?_cons_neg (fun c : Col => c.name == m) _ _ hcm]
        exact ih
      · rw [if_neg hc]
        cases hcm : (c.name == m) with
        | true =>
            rw [my_find?_cons_pos (fun c : Col => c.name == m) _ _ hcm,
                my_find?_cons_pos (fun c : Col => c.name == m) _ _ hcm]
        | false =>
            rw [my_find?_cons_neg (fun c : Col => c.name == m) _ _ hcm,
                my_find?_cons_neg (fun c : Col => c.name == m) _ _ hcm]
            exact ih

lemma getCol?_setCol_self (df : DataFrame) (n d : String) (cs : List Value) :
    getCol? (setCol df n d cs) n = some ⟨n, d, cs⟩ := by
  unfold setCol
  by_cases h : hasCol df n = true
  · rw [if_pos h]
    unfold hasCol at h
    exact find?_map_replace_self n d cs df.cols h
  · rw [if_neg h]
    show (df.cols ++ [(⟨n, d, cs⟩ : Col)]).find? (fun c => c.name == n) = _
    rw [List.find?_append]
    have hnone : df.cols.find? (fun c => c.name == n) = none := by
      rw [List.find?_eq_none]
      intro c hc hcn
      apply h
      unfold hasCol
      rw [List.any_eq_true]
      exact ⟨c, hc, hcn⟩
    rw [hnone, Option.none_or]
    exact my_find?_cons_pos (fun c : Col => c.name == n) _ _ (beq_self_eq_true n)

lemma getCol?_setCol_other (df : DataFrame) (n d : String) (cs : List Value)
    (m : String) (h : m ≠ n) :
    getCol? (setCol df n d cs) m = getCol? df m := by
  unfold setCol
  by_cases hh : hasCol df n = true
  · rw [if_pos hh]
    exact find?_map_replace_other n d cs m h df.cols
  · rw [if_neg hh]
    show (df.cols ++ [(⟨n, d, cs⟩ : Col)]).find? (fun c => c.name == m) = _
    rw [List.find?_append]
    have hlast : List.find? (fun c => c.name == m) [(⟨n, d, cs⟩ : Col)] = none := by
      rw [my_find?_cons_neg (fun c : Col => c.name == m) _ _
        (beq_eq_false_iff_ne.mpr (Ne.symm h))]
      rfl
    rw [hlast, Option.or_none]
    rfl

lemma not_mem_cons_split {m c : String} {rest : List String}
    (hm : m ∉ c :: rest) : m ≠ c ∧ m ∉ rest := by
  rw [List.mem_cons] at hm
  push_neg at hm
  exact hm

lemma getCol?_none_of_hasCol_false {df : DataFrame} {n : String}
    (h : hasCol df n = false) : getCol? df n = none := by
  rw [hasCol_eq_isSome] at h
  cases hg : getCol? df n with
  | none => rfl
  | some c => rw [hg] at h; exact absurd h (by simp)

lemma dateColsGo_ok_preserves :
    ∀ (names : List String) (df df' : DataFrame),
      dateColsGo names df = .ok df' →
      ∀ m, m ∉ names → getCol? df' m = getCol? df m := by
  intro names
  induction names with
  | nil =>
      intro df df' h m _
      cases h; rfl
  | cons c rest ih =>
      intro df df' h m hm
      obtain ⟨hmc, hmr⟩ := not_mem_cons_split hm
      unfold dateColsGo at h
      split at h
      · exact ih df df' h m hmr
      · split at h
        · exact ih df df' h m hmr
        · split at h
          · exact Except.noConfusion h
          · rw [ih _ df' h m hmr]
            exact getCol?_setCol_other df c _ _ m hmc

lemma dateColsGo_nrows :
    ∀ (names : List String) (df df' : DataFrame),
      dateColsGo names df = .ok df' → df'.nrows = df.nrows := by
  intro names
  induction names with
  | nil => intro df df' h; cases h; rfl
  | cons c rest ih =>
      intro df df' h
      unfold dateColsGo at h
      split at h
      · exact ih df df' h
      · split at h
        · exact ih df df' h
        · split at h
          · exact Except.noConfusion h
          · rw [ih _ df' h, nrows_setCol]

lemma dateColsGo_skip_all :
    ∀ (names : List String) (df : DataFrame),
      (∀ n ∈ names, hasCol df n = false) → dateColsGo names df = .ok df := by
  intro names
  induction names with
  | nil => intro df _; rfl
  | cons c rest ih =>
      intro df h
      unfold dateColsGo
      rw [getCol?_none_of_hasCol_false (h c (List.mem_cons_self c rest))]
      exact ih df (fun n hn => h n (List.mem_cons_of_mem c hn))

lemma objColsGo_preserves :
    ∀ (names : List String) (df : DataFrame) (m : String), m ∉ names →
      getCol? (objColsGo names df) m = getCol? df m := by
  intro names
  induction names with
  | nil => intro df m _; rfl
  | cons c rest ih =>
      intro df m hm
      obtain ⟨hmc, hmr⟩ := not_mem_cons_split hm
      unfold objColsGo
      split
      · exact ih df m hmr
      · split
        · exact ih df m hmr
        · rw [ih _ m hmr]
          exact getCol?_setCol_other df c _ _ m hmc

lemma objColsGo_nrows :
    ∀ (names : List String) (df : DataFrame),
      (objColsGo names df).nrows = df.nrows := by
  intro names
  induction names with
  | nil => intro df; rfl
  | cons c rest ih =>
      intro df
      unfold objColsGo
      split
      · exact ih df
      · split
        · exact ih df
        · rw [ih _, nrows_setCol]

lemma objColsGo_skip_all :
    ∀ (names : List String) (df : DataFrame),
      (∀ n ∈ names, hasCol df n = false) → objColsGo names df = df := by
  intro names
  induction names with
  | nil => intro df _; rfl
  | cons c rest ih =>
      intro df h
      unfold objColsGo
      rw [getCol?_none_of_hasCol_false (h c (List.mem_cons_self c rest))]
      exact ih df (fun n hn => h n (List.mem_cons_of_mem c hn))

lemma lonlatGo_ok_preserves :
    ∀ (names : List String) (df df' : DataFrame),
      lonlatGo names df = .ok df' →
      ∀ m, m ∉ names →
        (∀ c ∈ names, m ≠ geoBase c ++ "_Longitude" ∧ m ≠ geoBase c ++ "_Latitude") →
      getCol? df' m = getCol? df m := by
  intro names
  induction names with
  | nil => intro df df' h m _ _; cases h; rfl
  | cons c rest ih =>
      intro df df' h m hm hgen
      obtain ⟨hmc, hmr⟩ := not_mem_cons_split hm
      have hgc := hgen c (List.mem_cons_self c rest)
      have hgr : ∀ x ∈ rest, m ≠ geoBase x ++ "_Longitude" ∧ m ≠ geoBase x ++ "_Latitude" :=
        fun x hx => hgen x (List.mem_cons_of_mem c hx)
      unfold lonlatGo at h
      split at h
      · exact ih df df' h m hmr hgr
      · simp only [] at h
        split at h
        · split at h
          · rw [ih _ df' h m hmr hgr,
                getCol?_setCol_other _ _ _ _ m hgc.2,
                getCol?_setCol_other _ _ _ _ m hgc.1]
            exact getCol?_setCol_other df c _ _ m hmc
          · exact Except.noConfusion h
          · exact Except.noConfusion h
        · exact Except.noConfusion h

lemma lonlatGo_nrows :
    ∀ (names : List String) (df df' : DataFrame),
      lonlatGo names df = .ok df' → df'.nrows = df.nrows := by
  intro names
  induction names with
  | nil => intro df df' h; cases h; rfl
  | cons c rest ih =>
      intro df df' h
      unfold lonlatGo at h
      split at h
      · exact ih df df' h
      · simp only [] at h
        split at h
        · split at h
          · rw [ih _ df' h, nrows_setCol, nrows_setCol, nrows_setCol]
          · exact Except.noConfusion h
          · exact Except.noConfusion h
        · exact Except.noConfusion h

lemma lonlatGo_skip_all :
    ∀ (names : List String) (df : DataFrame),
      (∀ n ∈ names, hasCol df n = false) → lonlatGo names df = .ok df := by
  intro names
  induction names with
  | nil => intro df _; rfl
  | cons c rest ih =>
      intro df h
      unfold lonlatGo
      rw [getCol?_none_of_hasCol_false (h c (List.mem_cons_self c rest))]
      exact ih df (fun n hn => h n (List.mem_cons_of_mem c hn))

lemma recipientsPhase_preserves (df : DataFrame) (m : String)
    (h : m ≠ "recipientsNumbers") :
    getCol? (recipientsPhase df) m = getCol? df m := by
  unfold recipientsPhase
  split
  · rfl
  · exact getCol?_setCol_other df _ _ _ m h

lemma recipientsPhase_nrows (df : DataFrame) :
    (recipientsPhase df).nrows = df.nrows := by
  unfold recipientsPhase
  split
  · rfl
  · exact nrows_setCol df _ _ _

lemma recipientsPhase_skip (df : DataFrame)
    (h : hasCol df "recipientsNumbers" = false) : recipientsPhase df = df := by
  unfold recipientsPhase
  rw [getCol?_none_of_hasCol_false h]

lemma find?_filter_keep {α : Type} (p q : α → Bool) :
    ∀ l : List α, (∀ a, q a = true → p a = true) →
      (l.filter p).find? q = l.find? q := by
  intro l h
  induction l with
  | nil => rfl
  | cons a t ih =>
      rw [List.filter_cons]
      cases hq : q a with
      | true =>
          rw [if_pos (h a hq), my_find?_cons_pos q a _ hq, my_find?_cons_pos q a t hq]
      | false =>
          by_cases hp : p a = true
          · rw [if_pos hp, my_find?_cons_neg q a _ hq, my_find?_cons_neg q a t hq]
            exact ih
          · rw [if_neg hp, my_find?_cons_neg q a t hq]
            exact ih

lemma find?_filter_none {α : Type} (p q : α → Bool) :
    ∀ l : List α, (∀ a, q a = true → p a = false) →
      (l.filter p).find? q = none := by
  intro l h
  induction l with
  | nil => rfl
  | cons a t ih =>
      rw [List.filter_cons]
      cases hq : q a with
      | true =>
          rw [if_neg (by rw [h a hq]; exact Bool.false_ne_true)]
          exact ih
      | false =>
          by_cases hp : p a = true
          · rw [if_pos hp, my_find?_cons_neg q a _ hq]
            exact ih
          · rw [if_neg hp]
            exact ih

lemma dropColumns_ok_of_all (df : DataFrame) (names : List String)
    (h : names.all (fun n => hasCol df n) = true) :
    dropColumns df names =
      .ok ⟨df.nrows, df.cols.filter (fun c => !(names.contains c.name))⟩ := by
  unfold dropColumns
  rw [if_pos h]

lemma dropColumns_nrows (df df' : DataFrame) (names : List String)
    (h : dropColumns df names = .ok df') : df'.nrows = df.nrows := by
  unfold dropColumns at h
  split at h
  · cases h; rfl
  · exact Except.noConfusion h

lemma getCol?_dropColumns_not_mem (df df' : DataFrame) (names : List String)
    (h : dropColumns df names = .ok df') (m : String) (hm : m ∉ names) :
    getCol? df' m = getCol? df m := by
  unfold dropColumns at h
  split at h
  · cases h
    show (df.cols.filter (fun c => !(names.contains c.name))).find? (fun c => c.name == m) = _
    apply find?_filter_keep
    intro a ha
    rw [beq_iff_eq] at ha
    rw [ha]
    rw [Bool.not_eq_true']
    by_contra hcon
    rw [Bool.not_eq_false] at hcon
    exact hm (List.mem_of_elem_eq_true hcon)
  · exact Except.noConfusion h

lemma getCol?_dropColumns_mem (df df' : DataFrame) (names : List String)
    (h : dropColumns df names = .ok df') (m : String) (hm : m ∈ names) :
    getCol? df' m = none := by
  unfold dropColumns at h
  split at h
  · cases h
    show (df.cols.filter (fun c => !(names.contains c.name))).find? (fun c => c.name == m) = none
    apply find?_filter_none
    intro a ha
    rw [beq_iff_eq] at ha
    rw [ha]
    rw [Bool.not_eq_false']
    exact List.elem_eq_true_of_mem hm
  · exact Except.noConfusion h

lemma dropColumns_error_of_missing (df : DataFrame) (names : List String)
    (h : ¬ (names.all (fun n => hasCol df n) = true)) :
    dropColumns df names = .error "KeyError: not found in axis" := by
  unfold dropColumns
  rw [if_neg h]

lemma geoNamesSep_tail {c : String} {rest : List String}
    (h : GeoNamesSep (c :: rest)) : GeoNamesSep rest := by
  obtain ⟨h1, h2, h3, h4⟩ := h
  refine ⟨(List.nodup_cons.mp h1).2, ?_, ?_, ?_⟩
  · exact fun a ha b hb =>
      h2 a (List.mem_cons_of_mem c ha) b (List.mem_cons_of_mem c hb)
  · exact fun a ha b hb =>
      h3 a (List.mem_cons_of_mem c ha) b (List.mem_cons_of_mem c hb)
  · exact fun a ha b hb hab =>
      h4 a (List.mem_cons_of_mem c ha) b (List.mem_cons_of_mem c hb) hab

lemma mapE_ok_of_all {α β : Type} (f : α → Except String β) :
    ∀ l : List α, (∀ a ∈ l, ∃ b, f a = .ok b) →
      ∃ l', mapE f l = .ok l' := by
  intro l
  induction l with
  | nil => intro _; exact ⟨[], rfl⟩
  | cons a t ih =>
      intro h
      obtain ⟨b, hb⟩ := h a (List.mem_cons_self a t)
      obtain ⟨bs, hbs⟩ := ih (fun x hx => h x (List.mem_cons_of_mem a hx))
      refine ⟨b :: bs, ?_⟩
      unfold mapE
      rw [hb, hbs]

lemma mapE_ok_get {α β : Type} (f : α → Except String β) :
    ∀ (l : List α) (l' : List β), mapE f l = .ok l' →
      ∀ i a, l.get? i = some a → ∃ b, f a = .ok b ∧ l'.get? i = some b := by
  intro l
  induction l with
  | nil =>
      intro l' h i a ha
      simp at ha
  | cons x t ih =>
      intro l' h i a ha
      unfold mapE at h
      split at h
      · exact Except.noConfusion h
      · rename_i b hb
        split at h
        · exact Except.noConfusion h
        · rename_i bs hbs
          cases h
          cases i with
          | zero =>
              simp only [List.get?_cons_zero] at ha ⊢
              cases ha
              exact ⟨b, hb, rfl⟩
          | succ j =>
              simp only [List.get?_cons_succ] at ha ⊢
              exact ih bs hbs j a ha

lemma mapE_ok_length {α β : Type} (f : α → Except String β) :
    ∀ (l : List α) (l' : List β), mapE f l = .ok l' → l'.length = l.length := by
  intro l
  induction l with
  | nil => intro l' h; cases h; rfl
  | cons x t ih =>
      intro l' h
      unfold mapE at h
      split at h
      · exact Except.noConfusion h
      · rename_i b hb
        split at h
        · exact Except.noConfusion h
        · rename_i bs hbs
          cases h
          simp only [List.length_cons, ih bs hbs]

lemma geoWidth_fold :
    ∀ cells : List Value,
      (∀ v ∈ cells, ∃ ps, splitCommaV v = some ps ∧ ps.length = 2) →
      ∀ init : Nat, 1 ≤ init → init ≤ 2 →
        cells.foldl (fun m v =>
          match splitCommaV v with
          | some ps => max m ps.length
          | none => m) init = if cells.isEmpty then init else 2 := by
  intro cells
  induction cells with
  | nil => intro _ init _ _; rfl
  | cons v t ih =>
      intro h init h1 h2
      obtain ⟨ps, hps, hlen⟩ := h v (List.mem_cons_self v t)
      rw [List.foldl_cons]
      rw [show (match splitCommaV v with
            | some ps => max init ps.length
            | none => init) = 2 from by
        rw [hps]
        show init ⊔ ps.length = 2
        rw [hlen]
        exact Nat.max_eq_right h2]
      rw [ih (fun x hx => h x (List.mem_cons_of_mem v hx)) 2 (by omega) (le_refl 2)]
      simp [List.isEmpty_cons]

lemma goodGeo_parts (v : Value) (hv : GoodGeoCell v = true) :
    ∃ s a b qa qb, lstripBacktickV v = .str s ∧
      splitOnChar ',' s.data = [a, b] ∧
      pyFloat a = some qa ∧ pyFloat b = some qb := by
  unfold GoodGeoCell at hv
  split at hv
  · rename_i s hs
    split at hv
    · rename_i a b hab
      rw [Bool.and_eq_true] at hv
      obtain ⟨ha, hb⟩ := hv
      rw [Option.isSome_iff_exists] at ha hb
      obtain ⟨qa, hqa⟩ := ha
      obtain ⟨qb, hqb⟩ := hb
      exact ⟨s, a, b, qa, qb, hs, hab, hqa, hqb⟩
    · exact Bool.noConfusion hv
  · exact Bool.noConfusion hv

lemma splitPart_of_parts {s : String} {a b : List Char}
    (hab : splitOnChar ',' s.data = [a, b]) :
    splitPart 0 (Value.str s) = .str (String.mk a) ∧
    splitPart 1 (Value.str s) = .str (String.mk b) := by
  constructor
  · unfold splitPart
    rw [show splitCommaV (Value.str s) = some (splitOnChar ',' s.data) from rfl, hab]
    rfl
  · unfold splitPart
    rw [show splitCommaV (Value.str s) = some (splitOnChar ',' s.data) from rfl, hab]
    rfl

lemma floatCastV_str_ok {a : List Char} {qa : Rat} (h : pyFloat a = some qa) :
    floatCastV (.str (String.mk a)) = .ok (.num qa) := by
  show (match pyFloat a with
        | some q => Except.ok (Value.num q)
        | none => Except.error ("could not convert string to float: " ++ String.mk a)) =
      Except.ok (Value.num qa)
  rw [h]

lemma geoWidth_two_of_good (cells : List Value)
    (hall : cells.all GoodGeoCell = true) (hne : cells.isEmpty = false) :
    geoWidth (cells.map lstripBacktickV) = 2 := by
  unfold geoWidth
  rw [geoWidth_fold _ ?hp 1 (le_refl 1) (by omega)]
  case hp =>
    intro w hw
    rw [List.mem_map] at hw
    obtain ⟨v, hv, hlift⟩ := hw
    obtain ⟨s, a, b, qa, qb, hs, hab, _, _⟩ :=
      goodGeo_parts v (by rw [List.all_eq_true] at hall; exact hall v hv)
    refine ⟨[a, b], ?_, rfl⟩
    rw [← hlift, hs]
    show some (splitOnChar ',' s.data) = some [a, b]
    rw [hab]
  rw [if_neg ?hne2]
  case hne2 =>
    intro hcon
    rw [List.isEmpty_iff] at hcon
    rw [List.map_eq_nil_iff] at hcon
    rw [hcon] at hne
    exact Bool.noConfusion hne

lemma geo_head_step (df : DataFrame) (c : String) (col : Col)
    (hcol : getCol? df c = some col) (hok : GeoColOK col.cells = true) :
    ∃ lns lts,
      mapE floatCastV ((col.cells.map lstripBacktickV).map (splitPart 0)) = .ok lns ∧
      mapE floatCastV ((col.cells.map lstripBacktickV).map (splitPart 1)) = .ok lts ∧
      ∀ rest, lonlatGo (c :: rest) df =
        lonlatGo rest
          (setCol (setCol (setCol df c col.dtype (col.cells.map lstripBacktickV))
              (geoBase c ++ "_Longitude") "float64" lns)
            (geoBase c ++ "_Latitude") "float64" lts) := by
  unfold GeoColOK at hok
  rw [Bool.and_eq_true] at hok
  obtain ⟨hall, hne'⟩ := hok
  have hne : col.cells.isEmpty = false := by
    cases hemp : col.cells.isEmpty
    · rfl
    · rw [hemp] at hne'; exact Bool.noConfusion hne'
  have hw := geoWidth_two_of_good col.cells hall hne
  have hparts : ∀ w ∈ col.cells.map lstripBacktickV,
      (∃ b0, floatCastV (splitPart 0 w) = .ok b0) ∧
      (∃ b1, floatCastV (splitPart 1 w) = .ok b1) := by
    intro w hwmem
    rw [List.mem_map] at hwmem
    obtain ⟨v, hv, hlift⟩ := hwmem
    rw [List.all_eq_true] at hall
    obtain ⟨s, a, b, qa, qb, hs, hab, hqa, hqb⟩ := goodGeo_parts v (hall v hv)
    obtain ⟨hp0, hp1⟩ := splitPart_of_parts hab
    subst hlift
    rw [hs]
    exact ⟨⟨.num qa, by rw [hp0]; exact floatCastV_str_ok hqa⟩,
           ⟨.num qb, by rw [hp1]; exact floatCastV_str_ok hqb⟩⟩
  obtain ⟨lns, hlns⟩ :=
    mapE_ok_of_all floatCastV ((col.cells.map lstripBacktickV).map (splitPart 0))
      (by
        intro x hx
        rw [List.mem_map] at hx
        obtain ⟨w, hw1, hw2⟩ := hx
        subst hw2
        exact (hparts w hw1).1)
  obtain ⟨lts, hlts⟩ :=
    mapE_ok_of_all floatCastV ((col.cells.map lstripBacktickV).map (splitPart 1))
      (by
        intro x hx
        rw [List.mem_map] at hx
        obtain ⟨w, hw1, hw2⟩ := hx
        subst hw2
        exact (hparts w hw1).2)
  refine ⟨lns, lts, hlns, hlts, fun rest => ?_⟩
  conv_lhs => rw [lonlatGo]
  rw [hcol]
  simp only []
  rw [hw, if_pos (by decide), hlns, hlts]

lemma lonlatGo_ok_of_good :
    ∀ (names : List String) (df : DataFrame),
      GeoNamesSep names →
      (∀ n ∈ names, geoColPresentOK df n = true) →
      ∃ df', lonlatGo names df = .ok df' := by
  intro names
  induction names with
  | nil => intro df _ _; exact ⟨df, rfl⟩
  | cons c rest ih =>
      intro df hsep hgood
      have hc := hgood c (List.mem_cons_self c rest)
      unfold geoColPresentOK at hc
      split at hc
      · rename_i col hcol
        obtain ⟨lns, lts, hlns, hlts, hstep⟩ := geo_head_step df c col hcol hc
        rw [hstep rest]
        apply ih _ (geoNamesSep_tail hsep)
        intro n hn
        have hn' : n ∈ c :: rest := List.mem_cons_of_mem c hn
        have hne1 : n ≠ c := by
          intro hx
          exact (List.nodup_cons.mp hsep.1).1 (hx ▸ hn)
        have hne2 : n ≠ geoBase c ++ "_Longitude" :=
          (hsep.2.1 c (List.mem_cons_self c rest) n hn').1
        have hne3 : n ≠ geoBase c ++ "_Latitude" :=
          (hsep.2.1 c (List.mem_cons_self c rest) n hn').2
        unfold geoColPresentOK
        rw [getCol?_setCol_other _ _ _ _ _ hne3,
            getCol?_setCol_other _ _ _ _ _ hne2,
            getCol?_setCol_other _ _ _ _ _ hne1]
        have := hgood n hn'
        unfold geoColPresentOK at this
        exact this
      · exact Bool.noConfusion hc

lemma lonlatGo_computes :
    ∀ (names : List String) (df df' : DataFrame) (g : String) (col : Col),
      lonlatGo names df = .ok df' →
      GeoNamesSep names →
      g ∈ names →
      getCol? df g = some col →
      ∃ lns lts,
        mapE floatCastV ((col.cells.map lstripBacktickV).map (splitPart 0)) = .ok lns ∧
        mapE floatCastV ((col.cells.map lstripBacktickV).map (splitPart 1)) = .ok lts ∧
        getCol? df' (geoBase g ++ "_Longitude") =
          some ⟨geoBase g ++ "_Longitude", "float64", lns⟩ ∧
        getCol? df' (geoBase g ++ "_Latitude") =
          some ⟨geoBase g ++ "_Latitude", "float64", lts⟩ := by
  intro names
  induction names with
  | nil => intro df df' g col _ _ hg _; exact absurd hg (List.not_mem_nil g)
  | cons c rest ih =>
      intro df df' g col h hsep hg hcol
      rcases List.mem_cons.mp hg with hgc | hgr
      · subst hgc
        unfold lonlatGo at h
        split at h
        · rename_i hnone
          rw [hcol] at hnone
          exact Option.noConfusion hnone
        · rename_i colc hcolc
          rw [hcol] at hcolc
          injection hcolc with hcolc'
          subst hcolc'
          simp only [] at h
          split at h
          · split at h
            · rename_i lns lts hlns hlts
              have hmemg : g ∈ g :: rest := List.mem_cons_self g rest
              have hlonlat_ne : geoBase g ++ "_Longitude" ≠ geoBase g ++ "_Latitude" :=
                hsep.2.2.1 g hmemg g hmemg
              have hlon_notmem : geoBase g ++ "_Longitude" ∉ rest := by
                intro hmem
                exact (hsep.2.1 g hmemg _ (List.mem_cons_of_mem g hmem)).1 rfl
              have hlat_notmem : geoBase g ++ "_Latitude" ∉ rest := by
                intro hmem
                exact (hsep.2.1 g hmemg _ (List.mem_cons_of_mem g hmem)).2 rfl
              have hlon_notgen : ∀ x ∈ rest,
                  geoBase g ++ "_Longitude" ≠ geoBase x ++ "_Longitude" ∧
                  geoBase g ++ "_Longitude" ≠ geoBase x ++ "_Latitude" := by
                intro x hx
                have hxg : g ≠ x := by
                  intro heq
                  exact (List.nodup_cons.mp hsep.1).1 (heq.symm ▸ hx)
                exact ⟨(hsep.2.2.2 g hmemg x (List.mem_cons_of_mem g hx) hxg).1,
                       hsep.2.2.1 g hmemg x (List.mem_cons_of_mem g hx)⟩
              have hlat_notgen : ∀ x ∈ rest,
                  geoBase g ++ "_Latitude" ≠ geoBase x ++ "_Longitude" ∧
                  geoBase g ++ "_Latitude" ≠ geoBase x ++ "_Latitude" := by
                intro x hx
                have hxg : g ≠ x := by
                  intro heq
                  exact (List.nodup_cons.mp hsep.1).1 (heq.symm ▸ hx)
                exact ⟨fun hcon =>
                    (hsep.2.2.1 x (List.mem_cons_of_mem g hx) g hmemg) hcon.symm,
                  (hsep.2.2.2 g hmemg x (List.mem_cons_of_mem g hx) hxg).2⟩
              refine ⟨lns, lts, hlns, hlts, ?_, ?_⟩
              · rw [lonlatGo_ok_preserves rest _ df' h _ hlon_notmem hlon_notgen,
                    getCol?_setCol_other _ _ _ _ _ hlonlat_ne]
                exact getCol?_setCol_self _ _ _ _
              · rw [lonlatGo_ok_preserves rest _ df' h _ hlat_notmem hlat_notgen]
                exact getCol?_setCol_self _ _ _ _
            · exact Except.noConfusion h
            · exact Except.noConfusion h
          · exact Except.noConfusion h
      · have hgc : g ≠ c := by
          intro hx
          exact (List.nodup_cons.mp hsep.1).1 (hx ▸ hgr)
        have hglon : g ≠ geoBase c ++ "_Longitude" :=
          (hsep.2.1 c (List.mem_cons_self c rest) g hg).1
        have hglat : g ≠ geoBase c ++ "_Latitude" :=
          (hsep.2.1 c (List.mem_cons_self c rest) g hg).2
        unfold lonlatGo at h
        split at h
        · exact ih df df' g col h (geoNamesSep_tail hsep) hgr hcol
        · simp only [] at h
          split at h
          · split at h
            · apply ih _ df' g col h (geoNamesSep_tail hsep) hgr
              rw [getCol?_setCol_other _ _ _ _ _ hglat,
                  getCol?_setCol_other _ _ _ _ _ hglon,
                  getCol?_setCol_other _ _ _ _ _ hgc]
              exact hcol
            · exact Except.noConfusion h
            · exact Except.noConfusion h
          · exact Except.noConfusion h

lemma hasCol_setCol_mono (df : DataFrame) (n d : String) (cs : List Value)
    (m : String) (h : hasCol df m = true) :
    hasCol (setCol df n d cs) m = true := by
  rw [hasCol_eq_isSome]
  by_cases hmn : m = n
  · subst hmn
    rw [getCol?_setCol_self]
    rfl
  · rw [getCol?_setCol_other _ _ _ _ _ hmn, ← hasCol_eq_isSome]
    exact h

lemma lonlatGo_keeps_present :
    ∀ (names : List String) (df df' : DataFrame),
      lonlatGo names df = .ok df' →
      ∀ m, hasCol df m = true → hasCol df' m = true := by
  intro names
  induction names with
  | nil => intro df df' h m hm; cases h; exact hm
  | cons c rest ih =>
      intro df df' h m hm
      unfold lonlatGo at h
      split at h
      · exact ih df df' h m hm
      · simp only [] at h
        split at h
        · split at h
          · exact ih _ df' h m
              (hasCol_setCol_mono _ _ _ _ _
                (hasCol_setCol_mono _ _ _ _ _
                  (hasCol_setCol_mono _ _ _ _ _ hm)))
          · exact Except.noConfusion h
          · exact Except.noConfusion h
        · exact Except.noConfusion h

lemma recipientsPhase_keeps_present (df : DataFrame) (m : String)
    (h : hasCol df m = true) : hasCol (recipientsPhase df) m = true := by
  unfold recipientsPhase
  split
  · exact h
  · exact hasCol_setCol_mono _ _ _ _ _ h

lemma transform_columns_ok_elim {df out : DataFrame}
    (h : transform_columns df = .ok out) :
    ∃ df1 df3, dateColsGo date_columns df = .ok df1 ∧
      lonlatGo lonlat_columns (objColsGo object_columns df1) = .ok df3 ∧
      dropColumns (recipientsPhase df3) lonlat_columns = .ok out := by
  unfold transform_columns at h
  split at h
  · exact Except.noConfusion h
  · rename_i df1 heq1
    simp only [] at h
    split at h
    · exact Except.noConfusion h
    · rename_i df3 heq3
      exact ⟨df1, df3, heq1, heq3, h⟩

/-- C2 counterexample: in a table with no composite geo column at all, every
guarded per-column transform is skipped, but the unconditional
df.drop(columns=lonlat_columns) at line 84 raises a KeyError, so a missing
expected column is not silently skipped as the claim states. -/
theorem c2_counterexample :
    (∀ n ∈ lonlat_columns, hasCol c2CexDF n = false) ∧
    transform_columns c2CexDF = .error "KeyError: not found in axis" :=
  ⟨by decide, rfl⟩

/-- C2 amended: absent temporal columns, object columns and
recipientsNumbers are silently skipped - when all five composite geo
columns are present and well-formed and none of the other expected columns
appears, transform_columns completes with no error.  (Absence of a geo
column makes the unconditional drop raise - the counterexample - and
transform_and_union separately requires taskDetails.) -/
theorem c2_amended :
    ∀ df : DataFrame,
      (∀ n ∈ date_columns ++ object_columns ++ ["recipientsNumbers"],
        hasCol df n = false) →
      (∀ n ∈ lonlat_columns, geoColPresentOK df n = true) →
      isOkE (transform_columns df) = true := by
  intro df habs hgeo
  have hdateAbs : ∀ n ∈ date_columns, hasCol df n = false := fun n hn =>
    habs n (List.mem_append_left _ (List.mem_append_left _ hn))
  have hobjAbs : ∀ n ∈ object_columns, hasCol df n = false := fun n hn =>
    habs n (List.mem_append_left _ (List.mem_append_right _ hn))
  have hrecAbs : hasCol df "recipientsNumbers" = false :=
    habs _ (List.mem_append_right _ (List.mem_cons_self _ _))
  have hd := dateColsGo_skip_all date_columns df hdateAbs
  have hob := objColsGo_skip_all object_columns df hobjAbs
  obtain ⟨df3, hlon⟩ := lonlatGo_ok_of_good lonlat_columns df (by decide) hgeo
  have hrec3 : hasCol df3 "recipientsNumbers" = false := by
    rw [hasCol_eq_isSome,
        lonlatGo_ok_preserves lonlat_columns df df3 hlon "recipientsNumbers"
          (by decide) (by decide),
        ← hasCol_eq_isSome]
    exact hrecAbs
  have hgeo3 : ∀ n ∈ lonlat_columns, hasCol df3 n = true := by
    intro n hn
    apply lonlatGo_keeps_present lonlat_columns df df3 hlon
    have hpres := hgeo n hn
    unfold geoColPresentOK at hpres
    rw [hasCol_eq_isSome]
    split at hpres
    · rename_i c hc
      rw [hc]; rfl
    · exact Bool.noConfusion hpres
  have hall : lonlat_columns.all (fun n => hasCol df3 n) = true := by
    rw [List.all_eq_true]
    exact hgeo3
  unfold transform_columns
  rw [hd]
  simp only []
  rw [hob, hlon]
  simp only []
  rw [recipientsPhase_skip df3 hrec3, dropColumns_ok_of_all df3 lonlat_columns hall]
  rfl

/-- C2 amended witness: the amended theorem applied to a concrete one-row
table carrying only the five geo columns and one unrelated column. -/
theorem c2_amended_witness : isOkE (transform_columns c2WitDF) = true :=
  c2_amended c2WitDF (by decide) (by decide)

/-- C7: when transform_columns succeeds, every composite geo column present
in the input with a cell of the form marker+lon,lat yields two float64
columns - the composite name with "LonLat" replaced by "_Longitude" and
"_Latitude" - holding the parsed longitude and latitude at that row, and
the composite column itself is absent from the output. -/
theorem c7_geo_split :
    ∀ (df out : DataFrame) (g : String) (col : Col) (i : Nat) (s : String)
      (a b : List Char) (qa qb : Rat),
      transform_columns df = .ok out →
      g ∈ lonlat_columns →
      getCol? df g = some col →
      col.cells.get? i = some (.str s) →
      splitOnChar ',' (s.data.dropWhile (fun ch => ch = Char.ofNat 96)) = [a, b] →
      pyFloat a = some qa →
      pyFloat b = some qb →
      (∃ cL, getCol? out (geoBase g ++ "_Longitude") = some cL ∧
        cL.dtype = "float64" ∧ cL.cells.get? i = some (.num qa)) ∧
      (∃ cT, getCol? out (geoBase g ++ "_Latitude") = some cT ∧
        cT.dtype = "float64" ∧ cT.cells.get? i = some (.num qb)) ∧
      getCol? out g = none := by
  intro df out g col i s a b qa qb h hmem hcol hcell hsplit hqa hqb
  obtain ⟨df1, df3, hd, hlon, hdrop⟩ := transform_columns_ok_elim h
  have hnotdate : g ∉ date_columns := by
    have hfact : ∀ x ∈ lonlat_columns, x ∉ date_columns := by decide
    exact hfact g hmem
  have hnotobj : g ∉ object_columns := by
    have hfact : ∀ x ∈ lonlat_columns, x ∉ object_columns := by decide
    exact hfact g hmem
  have hcol2 : getCol? (objColsGo object_columns df1) g = some col := by
    rw [objColsGo_preserves _ _ _ hnotobj,
        dateColsGo_ok_preserves _ _ _ hd _ hnotdate]
    exact hcol
  obtain ⟨lns, lts, hlns, hlts, hLon3, hLat3⟩ :=
    lonlatGo_computes lonlat_columns _ df3 g col hlon (by decide) hmem hcol2
  have hstrip : lstripBacktickV (Value.str s) =
      .str (String.mk (s.data.dropWhile (fun ch => ch = Char.ofNat 96))) := rfl
  obtain ⟨hp0, hp1⟩ := splitPart_of_parts
    (show splitOnChar ','
        (String.mk (s.data.dropWhile (fun ch => ch = Char.ofNat 96))).data = [a, b]
      from hsplit)
  have hin0 : ((col.cells.map lstripBacktickV).map (splitPart 0)).get? i =
      some (Value.str (String.mk a)) := by
    rw [List.get?_map, List.get?_map, hcell]
    show some (splitPart 0 (lstripBacktickV (Value.str s))) = _
    rw [hstrip, hp0]
  have hin1 : ((col.cells.map lstripBacktickV).map (splitPart 1)).get? i =
      some (Value.str (String.mk b)) := by
    rw [List.get?_map, List.get?_map, hcell]
    show some (splitPart 1 (lstripBacktickV (Value.str s))) = _
    rw [hstrip, hp1]
  obtain ⟨b0, hb0, hlns_i⟩ := mapE_ok_get floatCastV _ lns hlns i _ hin0
  obtain ⟨b1, hb1, hlts_i⟩ := mapE_ok_get floatCastV _ lts hlts i _ hin1
  have hb0' : b0 = Value.num qa := by
    rw [floatCastV_str_ok hqa] at hb0
    injection hb0 with hh
    exact hh.symm
  have hb1' : b1 = Value.num qb := by
    rw [floatCastV_str_ok hqb] at hb1
    injection hb1 with hh
    exact hh.symm
  have hfacts : (geoBase g ++ "_Longitude") ∉ lonlat_columns ∧
      (geoBase g ++ "_Latitude") ∉ lonlat_columns ∧
      geoBase g ++ "_Longitude" ≠ "recipientsNumbers" ∧
      geoBase g ++ "_Latitude" ≠ "recipientsNumbers" := by
    have hfact : ∀ x ∈ lonlat_columns,
        (geoBase x ++ "_Longitude") ∉ lonlat_columns ∧
        (geoBase x ++ "_Latitude") ∉ lonlat_columns ∧
        geoBase x ++ "_Longitude" ≠ "recipientsNumbers" ∧
        geoBase x ++ "_Latitude" ≠ "recipientsNumbers" := by decide
    exact hfact g hmem
  refine ⟨⟨⟨geoBase g ++ "_Longitude", "float64", lns⟩, ?_, rfl, ?_⟩,
          ⟨⟨geoBase g ++ "_Latitude", "float64", lts⟩, ?_, rfl, ?_⟩, ?_⟩
  · rw [getCol?_dropColumns_not_mem _ _ _ hdrop _ hfacts.1,
        recipientsPhase_preserves _ _ hfacts.2.2.1]
    exact hLon3
  · rw [hlns_i, hb0']
  · rw [getCol?_dropColumns_not_mem _ _ _ hdrop _ hfacts.2.1,
        recipientsPhase_preserves _ _ hfacts.2.2.2]
    exact hLat3
  · rw [hlts_i, hb1']
  · exact getCol?_dropColumns_mem _ _ _ hdrop g hmem

/-- C7 witness: the theorem applied to the concrete one-row table whose
destinationLonLat cell is the marked composite value backtick+12.5,45.1. -/
theorem c7_geo_split_witness :
    (∃ cL, getCol? c7WitOut "destination_Longitude" = some cL ∧
        cL.dtype = "float64" ∧ cL.cells.get? 0 = some (.num (mkRat 25 2))) ∧
    (∃ cT, getCol? c7WitOut "destination_Latitude" = some cT ∧
        cT.dtype = "float64" ∧ cT.cells.get? 0 = some (.num (mkRat 451 10))) ∧
    getCol? c7WitOut "destinationLonLat" = none := by
  have h := c7_geo_split c2WitDF c7WitOut "destinationLonLat"
    ⟨"destinationLonLat", "object", [.str "\x6012.5,45.1"]⟩ 0 "\x6012.5,45.1"
    "12.5".data "45.1".data (mkRat 25 2) (mkRat 451 10)
    (by rfl) (by decide) (by decide) (by decide) (by decide) (by decide) (by decide)
  rw [show geoBase "destinationLonLat" ++ "_Longitude" = "destination_Longitude"
        from by decide,
      show geoBase "destinationLonLat" ++ "_Latitude" = "destination_Latitude"
        from by decide] at h
  exact h

/-- C9: when transform_columns succeeds on a table containing
recipientsNumbers, the output column is object-typed and every cell is the
text rendering of the original cell with leading backticks stripped, with
the exact string "nan" (in particular, the rendering that a null cell
receives) normalized back to a proper null. -/
theorem c9_recipients :
    ∀ (df out : DataFrame) (col : Col),
      transform_columns df = .ok out →
      getCol? df "recipientsNumbers" = some col →
      ∃ c', getCol? out "recipientsNumbers" = some c' ∧
        c'.dtype = "object" ∧
        c'.cells = ((col.cells.map (fun v => Value.str (pyStrOfValue v))).map
            lstripBacktickV).map
              (fun v => if v == Value.str "nan" then Value.null else v) ∧
        (∀ i, col.cells.get? i = some Value.null →
          c'.cells.get? i = some Value.null) ∧
        (∀ i s, col.cells.get? i = some (Value.str s) →
          c'.cells.get? i = some (
            if String.mk (s.data.dropWhile (fun ch => ch = Char.ofNat 96)) = "nan"
            then Value.null
            else Value.str
              (String.mk (s.data.dropWhile (fun ch => ch = Char.ofNat 96))))) := by
  intro df out col h hcol
  obtain ⟨df1, df3, hd, hlon, hdrop⟩ := transform_columns_ok_elim h
  have hcol3 : getCol? df3 "recipientsNumbers" = some col := by
    rw [lonlatGo_ok_preserves _ _ _ hlon _ (by decide) (by decide),
        objColsGo_preserves _ _ _ (by decide),
        dateColsGo_ok_preserves _ _ _ hd _ (by decide)]
    exact hcol
  have hrec : getCol? (recipientsPhase df3) "recipientsNumbers" =
      some ⟨"recipientsNumbers", "object",
        ((col.cells.map (fun v => Value.str (pyStrOfValue v))).map
            lstripBacktickV).map
          (fun v => if v == Value.str "nan" then Value.null else v)⟩ := by
    unfold recipientsPhase
    rw [hcol3]
    simp only []
    exact getCol?_setCol_self _ _ _ _
  have hout : getCol? out "recipientsNumbers" =
      some ⟨"recipientsNumbers", "object",
        ((col.cells.map (fun v => Value.str (pyStrOfValue v))).map
            lstripBacktickV).map
          (fun v => if v == Value.str "nan" then Value.null else v)⟩ := by
    rw [getCol?_dropColumns_not_mem _ _ _ hdrop _ (by decide)]
    exact hrec
  refine ⟨_, hout, rfl, rfl, ?_, ?_⟩
  · intro i hi
    show (((col.cells.map (fun v => Value.str (pyStrOfValue v))).map
        lstripBacktickV).map
          (fun v => if v == Value.str "nan" then Value.null else v)).get? i =
      some Value.null
    rw [List.get?_map, List.get?_map, List.get?_map, hi]
    rfl
  · intro i s hi
    show (((col.cells.map (fun v => Value.str (pyStrOfValue v))).map
        lstripBacktickV).map
          (fun v => if v == Value.str "nan" then Value.null else v)).get? i = _
    rw [List.get?_map, List.get?_map, List.get?_map, hi]
    by_cases hx : String.mk (s.data.dropWhile (fun ch => ch = Char.ofNat 96)) = "nan"
    · rw [if_pos hx]
      show some (if (lstripBacktickV (Value.str (pyStrOfValue (Value.str s)))
          == Value.str "nan") = true then Value.null
        else lstripBacktickV (Value.str (pyStrOfValue (Value.str s)))) = _
      rw [show lstripBacktickV (Value.str (pyStrOfValue (Value.str s)))
            = Value.str (String.mk (s.data.dropWhile (fun ch => ch = Char.ofNat 96)))
          from rfl, hx]
      rfl
    · rw [if_neg hx]
      show some (if (lstripBacktickV (Value.str (pyStrOfValue (Value.str s)))
          == Value.str "nan") = true then Value.null
        else lstripBacktickV (Value.str (pyStrOfValue (Value.str s)))) = _
      rw [show lstripBacktickV (Value.str (pyStrOfValue (Value.str s)))
            = Value.str (String.mk (s.data.dropWhile (fun ch => ch = Char.ofNat 96)))
          from rfl]
      rw [if_neg (by
        intro hcon
        rw [beq_iff_eq] at hcon
        injection hcon with hcon'
        exact hx hcon')]

/-- C9 witness: on the concrete table, the backtick marker is stripped from
the first recipientsNumbers cell and the null cell comes out as a proper
null rather than the string "nan". -/
theorem c9_recipients_witness :
    ∃ c', getCol? c9WitOut "recipientsNumbers" = some c' ∧
      c'.dtype = "object" ∧
      c'.cells.get? 0 = some (Value.str "123") ∧
      c'.cells.get? 1 = some Value.null := by
  obtain ⟨c', h1, h2, _, h4, h5⟩ := c9_recipients c9WitDF c9WitOut
    ⟨"recipientsNumbers", "object", [.str "\x60123", .null]⟩ rfl (by decide)
  refine ⟨c', h1, h2, ?_, ?_⟩
  · rw [h5 0 "\x60123" (by decide)]
    decide
  · exact h4 1 (by decide)

lemma transform_columns_nrows {df out : DataFrame}
    (h : transform_columns df = .ok out) : out.nrows = df.nrows := by
  obtain ⟨df1, df3, hd, hlon, hdrop⟩ := transform_columns_ok_elim h
  rw [dropColumns_nrows _ _ _ hdrop, recipientsPhase_nrows,
      lonlatGo_nrows _ _ _ hlon, objColsGo_nrows, dateColsGo_nrows _ _ _ hd]

lemma processFile_nrows {path : String} {df out : DataFrame}
    (h : processFile path df = .ok out) : out.nrows = df.nrows := by
  unfold processFile at h
  split at h
  · exact Except.noConfusion h
  · rename_i df' hdf'
    simp only [] at h
    split at h
    · exact Except.noConfusion h
    · cases h
      rw [nrows_setCol, nrows_setCol, nrows_setCol]
      exact transform_columns_nrows hdf'

lemma mapE_processFile_nrows :
    ∀ (files : List (String × DataFrame)) (dfs : List DataFrame),
      mapE (fun pr => processFile pr.1 pr.2) files = .ok dfs →
      dfs.map DataFrame.nrows = files.map (fun pr => pr.2.nrows) := by
  intro files
  induction files with
  | nil => intro dfs h; cases h; rfl
  | cons f t ih =>
      intro dfs h
      unfold mapE at h
      split at h
      · exact Except.noConfusion h
      · rename_i b hb
        split at h
        · exact Except.noConfusion h
        · rename_i bs hbs
          cases h
          simp only [List.map_cons]
          rw [ih bs hbs, processFile_nrows hb]

lemma rowsOf_length (df : DataFrame) : (rowsOf df).length = df.nrows := by
  unfold rowsOf
  rw [List.length_map, List.length_range]

/-- C4: every outcome of transform_and_union has exactly as many rows as
the input files have in total: the concatenation keeps every row and the
sort only permutes them. -/
theorem c4_row_count :
    ∀ (files : List (String × DataFrame)) (out : List (List (String × Value))),
      TransformUnionResult files out →
      out.length = (files.map (fun pr => pr.2.nrows)).sum := by
  intro files out h
  obtain ⟨c, hc, hperm, _⟩ := h
  unfold transform_and_union_combined at hc
  split at hc
  · exact Except.noConfusion hc
  · rename_i dfs hdfs
    unfold pdConcat at hc
    split at hc
    · exact Except.noConfusion hc
    · rename_i d0 drest
      cases hc
      rw [← hperm.length_eq, rowsOf_length]
      show ((d0 :: drest).map DataFrame.nrows).sum = _
      rw [mapE_processFile_nrows files (d0 :: drest) hdfs]

example : isOkE (transform_and_union_combined unionWitFiles) = true := by decide

example : (rowsOf unionWitCombined).length = 3 := by decide

/-- C4 witness: on the two concrete files (one row plus two rows), every
qualifying output has exactly three rows. -/
theorem c4_row_count_witness :
    unionWitOut.length = (unionWitFiles.map (fun pr => pr.2.nrows)).sum :=
  c4_row_count unionWitFiles unionWitOut
    ⟨unionWitCombined, rfl, by decide, by decide⟩

/-- C3 amended: every qualifying output of transform_and_union is
non-decreasing in the Month/Year key, and the rows with a null Month/Year
sit together at the end (na_position="last"): no null-key row ever
precedes a dated row.  Stability is not guaranteed - the code uses
sort_values with the default kind "quicksort", which the pandas
documentation lists as not stable - see the counterexample. -/
theorem c3_sorted :
    ∀ (files : List (String × DataFrame)) (out : List (List (String × Value))),
      TransformUnionResult files out →
      (∀ i j, i < j → j < out.length →
        keyLE (out.getD i []) (out.getD j [])) ∧
      (∀ i j, i < j → j < out.length →
        rowKey (out.getD i []) = none → rowKey (out.getD j []) = none) := by
  intro files out h
  obtain ⟨c, _, _, hpair⟩ := h
  have hget : ∀ i j, i < j → j < out.length →
      keyLE (out.getD i []) (out.getD j []) := by
    intro i j hij hj
    have hi : i < out.length := Nat.lt_trans hij hj
    rw [List.getD_eq_getElem?_getD, List.getD_eq_getElem?_getD,
        List.getElem?_eq_getElem hi, List.getElem?_eq_getElem hj]
    have := List.pairwise_iff_get.mp hpair ⟨i, hi⟩ ⟨j, hj⟩ hij
    simpa [List.get_eq_getElem] using this
  refine ⟨hget, ?_⟩
  intro i j hij hj hnone
  have hk := hget i j hij hj
  unfold keyLE at hk
  rw [hnone] at hk
  cases hcase : rowKey (out.getD j []) with
  | none => rfl
  | some d =>
      exfalso
      rw [hcase] at hk
      exact hk

/-- C3 counterexample: the reversed order of two equal-key rows satisfies
everything sort_values(kind="quicksort") guarantees - it is a permutation,
non-decreasing in the key - yet the rows with key January 2023 are not in
their original concatenation order, so the claimed stability does not hold
of the code's sort.  (The pandas documentation lists only "mergesort" and
"stable" as stable kinds; the code requests neither.) -/
theorem c3_counterexample :
    TransformUnionResult c3CexFiles c3CexOut ∧
    transform_and_union_combined c3CexFiles = .ok c3CexCombined ∧
    ¬ StableFor (rowsOf c3CexCombined) c3CexOut := by
  refine ⟨⟨c3CexCombined, rfl, by decide, by decide⟩, rfl, ?_⟩
  intro hstable
  have hx := hstable (some ⟨2023, 1⟩)
  revert hx
  decide

/-- C3 amended witness: the amended theorem applied at the concrete
two-file input; the adjacent output rows are correctly ordered. -/
theorem c3_sorted_witness :
    keyLE (unionWitOut.getD 0 []) (unionWitOut.getD 1 []) ∧
    keyLE (unionWitOut.getD 1 []) (unionWitOut.getD 2 []) := by
  have h := c3_sorted unionWitFiles unionWitOut
    ⟨unionWitCombined, rfl, by decide, by decide⟩
  exact ⟨h.1 0 1 (by omega) (by decide), h.1 1 2 (by omega) (by decide)⟩

lemma mem_insertName {acc : List String} {n m : String} :
    m ∈ insertName acc n ↔ m ∈ acc ∨ m = n := by
  unfold insertName
  by_cases h : acc.contains n = true
  · rw [if_pos h]
    constructor
    · exact Or.inl
    · rintro (hm | hm)
      · exact hm
      · subst hm; exact List.mem_of_elem_eq_true h
  · rw [if_neg h]
    rw [List.mem_append, List.mem_singleton]

lemma mem_addNames_mono {m : String} :
    ∀ (l : List Col) (acc : List String), m ∈ acc → m ∈ addNames acc l := by
  intro l
  induction l with
  | nil => intro acc h; exact h
  | cons c t ih =>
      intro acc h
      exact ih _ (mem_insertName.mpr (Or.inl h))

lemma mem_addNames_of_col {m : String} :
    ∀ (l : List Col) (acc : List String),
      (∃ c ∈ l, c.name = m) → m ∈ addNames acc l := by
  intro l
  induction l with
  | nil =>
      intro acc h
      obtain ⟨c, hc, _⟩ := h
      exact absurd hc (List.not_mem_nil c)
  | cons c t ih =>
      intro acc h
      obtain ⟨c', hc', hcm⟩ := h
      rcases List.mem_cons.mp hc' with rfl | hmem
      · exact mem_addNames_mono t _ (mem_insertName.mpr (Or.inr hcm.symm))
      · exact ih _ ⟨c', hmem, hcm⟩

lemma mem_unionNamesGo_mono {m : String} :
    ∀ (dfs : List DataFrame) (acc : List String),
      m ∈ acc → m ∈ unionNamesGo acc dfs := by
  intro dfs
  induction dfs with
  | nil => intro acc h; exact h
  | cons d t ih => intro acc h; exact ih _ (mem_addNames_mono _ _ h)

lemma mem_unionNames_of_hasCol {m : String} :
    ∀ (dfs : List DataFrame) (acc : List String) (df : DataFrame),
      df ∈ dfs → hasCol df m = true → m ∈ unionNamesGo acc dfs := by
  intro dfs
  induction dfs with
  | nil => intro acc df h _; exact absurd h (List.not_mem_nil df)
  | cons d t ih =>
      intro acc df hdf hcol
      rcases List.mem_cons.mp hdf with rfl | hmem
      · show m ∈ unionNamesGo (addNames acc df.cols) t
        apply mem_unionNamesGo_mono
        apply mem_addNames_of_col
        unfold hasCol at hcol
        rw [List.any_eq_true] at hcol
        obtain ⟨cc, hcc, hcm⟩ := hcol
        exact ⟨cc, hcc, by rwa [beq_iff_eq] at hcm⟩
      · exact ih _ df hmem hcol

lemma find?_map_mkcol (m : String) (F : String → List Value) :
    ∀ names : List String,
      (names.map (fun n => (⟨n, "object", F n⟩ : Col))).find?
        (fun c => c.name == m) =
      if m ∈ names then some ⟨m, "object", F m⟩ else none := by
  intro names
  induction names with
  | nil => rfl
  | cons n t ih =>
      simp only [List.map_cons]
      by_cases hnm : (n == m) = true
      · rw [beq_iff_eq] at hnm
        subst hnm
        rw [my_find?_cons_pos (fun c : Col => c.name == n) _ _ (beq_self_eq_true n),
            if_pos (List.mem_cons_self n t)]
      · have hfalse : (n == m) = false := Bool.eq_false_iff.mpr hnm
        rw [my_find?_cons_neg (fun c : Col => c.name == m) _ _ hfalse, ih]
        by_cases hmem : m ∈ t
        · rw [if_pos hmem, if_pos (List.mem_cons_of_mem n hmem)]
        · rw [if_neg hmem, if_neg (by
            intro hcon
            rcases List.mem_cons.mp hcon with rfl | hx
            · rw [beq_self_eq_true m] at hfalse
              exact Bool.noConfusion hfalse
            · exact hmem hx)]

lemma getCol?_pdConcat {dfs : List DataFrame} {c : DataFrame}
    (h : pdConcat dfs = .ok c) (m : String) (hm : m ∈ unionNames dfs) :
    getCol? c m =
      some ⟨m, "object", (dfs.map (fun df => colCellsOrNull df m)).flatten⟩ := by
  unfold pdConcat at h
  split at h
  · exact Except.noConfusion h
  · rename_i d0 drest
    cases h
    show ((unionNames (d0 :: drest)).map
        (fun n => (⟨n, "object",
          ((d0 :: drest).map (fun df => colCellsOrNull df n)).flatten⟩ : Col))).find?
        (fun cc => cc.name == m) = _
    rw [find?_map_mkcol m
        (fun n => ((d0 :: drest).map (fun df => colCellsOrNull df n)).flatten)
        (unionNames (d0 :: drest)),
      if_pos hm]

lemma pdConcat_nrows {dfs : List DataFrame} {c : DataFrame}
    (h : pdConcat dfs = .ok c) :
    c.nrows = (dfs.map DataFrame.nrows).sum := by
  unfold pdConcat at h
  split at h
  · exact Except.noConfusion h
  · rename_i d0 dr
    cases h
    rfl

lemma lookup_row_of_find? (m : String) (i : Nat) :
    ∀ (l : List Col) (col : Col),
      l.find? (fun c => c.name == m) = some col →
      (l.map (fun c => (c.name, c.cells.getD i Value.null))).lookup m =
        some (col.cells.getD i Value.null) := by
  intro l
  induction l with
  | nil => intro col h; exact Option.noConfusion h
  | cons c t ih =>
      intro col h
      by_cases hc : (c.name == m) = true
      · rw [my_find?_cons_pos (fun c : Col => c.name == m) _ _ hc] at h
        injection h with h'
        subst h'
        simp only [List.map_cons, List.lookup]
        rw [show (m == c.name) = true from by
          rw [beq_iff_eq] at hc ⊢; exact hc.symm]
      · have hfalse : (c.name == m) = false := Bool.eq_false_iff.mpr hc
        rw [my_find?_cons_neg (fun c : Col => c.name == m) _ _ hfalse] at h
        simp only [List.map_cons, List.lookup]
        rw [show (m == c.name) = false from by
          rw [beq_eq_false_iff_ne] at hfalse ⊢
          exact fun heq => hfalse heq.symm]
        exact ih col h

lemma flatten_getD_zero_head {n : Nat} (hn : 0 < n) (v : Value)
    (rest : List (List Value)) :
    ((List.replicate n v :: rest).flatten).getD 0 Value.null = v := by
  cases n with
  | zero => omega
  | succ k => rfl

lemma processFile_monthyear {path : String} {df out : DataFrame}
    (h : processFile path df = .ok out) :
    getCol? out "Month/Year" =
      some ⟨"Month/Year", "object",
        List.replicate df.nrows
          (optDateValue (extract_month_year_from_filename path))⟩ := by
  unfold processFile at h
  split at h
  · exact Except.noConfusion h
  · rename_i df' hdf'
    simp only [] at h
    split at h
    · exact Except.noConfusion h
    · cases h
      rw [getCol?_setCol_other _ _ _ _ _ (by decide), getCol?_setCol_self,
          nrows_setCol, transform_columns_nrows hdf']

/-- C8: a filename whose canonicalized month token fails to parse produces
a null date - the try/except logs and returns None instead of raising -
the run continues, and the null propagates into the output: some output
row holds a literal null in its Month/Year cell and sorts under the null
key. -/
theorem c8_null_date :
    ∀ (path : String) (df : DataFrame) (rest : List (String × DataFrame))
      (out : List (List (String × Value))),
      parseMonthYear (canonMonth (rawToken path)) = none →
      0 < df.nrows →
      TransformUnionResult ((path, df) :: rest) out →
      extract_month_year_from_filename path = none ∧
      ∃ r ∈ out, r.lookup "Month/Year" = some Value.null ∧ rowKey r = none := by
  intro path df rest out hparse hpos h
  have hext : extract_month_year_from_filename path = none := hparse
  refine ⟨hext, ?_⟩
  obtain ⟨c, hc, hperm, _⟩ := h
  unfold transform_and_union_combined at hc
  split at hc
  · exact Except.noConfusion hc
  · rename_i dfs hdfs
    unfold mapE at hdfs
    split at hdfs
    · exact Except.noConfusion hdfs
    · rename_i d1 hd1
      split at hdfs
      · exact Except.noConfusion hdfs
      · rename_i ds hds
        cases hdfs
        have hmy := processFile_monthyear hd1
        rw [hext] at hmy
        have hmem : "Month/Year" ∈ unionNames (d1 :: ds) := by
          apply mem_unionNames_of_hasCol (d1 :: ds) [] d1 (List.mem_cons_self _ _)
          rw [hasCol_eq_isSome, hmy]
          rfl
        have hccol := getCol?_pdConcat hc "Month/Year" hmem
        have hc0 : 0 < c.nrows := by
          rw [pdConcat_nrows hc]
          simp only [List.map_cons, List.sum_cons]
          have hnd : d1.nrows = df.nrows := processFile_nrows hd1
          omega
        have hcellv :
            ((d1 :: ds).map
              (fun dfx => colCellsOrNull dfx "Month/Year")).flatten.getD 0
                Value.null = Value.null := by
          simp only [List.map_cons, List.flatten_cons]
          have hcc : colCellsOrNull d1 "Month/Year" =
              List.replicate df.nrows Value.null := by
            unfold colCellsOrNull
            rw [hmy]
            rfl
          rw [hcc]
          have := flatten_getD_zero_head hpos Value.null
            (ds.map (fun dfx => colCellsOrNull dfx "Month/Year"))
          simpa [List.flatten_cons] using this
        have hlook := lookup_row_of_find? "Month/Year" 0 c.cols _ hccol
        rw [show ((⟨"Month/Year", "object",
              ((d1 :: ds).map
                (fun dfx => colCellsOrNull dfx "Month/Year")).flatten⟩ : Col).cells.getD 0
              Value.null) = Value.null from hcellv] at hlook
        have hrowmem :
            (c.cols.map (fun cc => (cc.name, cc.cells.getD 0 Value.null))) ∈ rowsOf c := by
          unfold rowsOf
          apply List.mem_map_of_mem
          rw [List.mem_range]
          exact hc0
        refine ⟨c.cols.map (fun cc => (cc.name, cc.cells.getD 0 Value.null)),
          hperm.mem_iff.mp hrowmem, hlook, ?_⟩
        unfold rowKey
        rw [hlook]

/-- C8 witness: the theorem applied at the concrete unparseable filename
"data/x_foo.csv". -/
theorem c8_null_date_witness :
    extract_month_year_from_filename "data/x_foo.csv" = none ∧
    ∃ r ∈ c8WitOut, r.lookup "Month/Year" = some Value.null ∧ rowKey r = none :=
  c8_null_date "data/x_foo.csv" unionWitDF1 [] c8WitOut (by decide) (by decide)
    ⟨c8WitCombined, rfl, by decide, by decide⟩

lemma alookup_eq_none_iff {β : Type} (k : String) :
    ∀ l : List (String × β), alookup k l = none ↔ k ∉ l.map Prod.fst := by
  intro l
  induction l with
  | nil => simp [alookup]
  | cons p t ih =>
    obtain ⟨k1, v⟩ := p
    by_cases h : k1 = k
    · subst h
      simp [alookup]
    · rw [show alookup k ((k1, v) :: t) = alookup k t by
        simp [alookup, beq_eq_false_iff_ne.mpr h]]
      simp [ih, Ne.symm h]

lemma alookup_of_mem_nodup {β : Type} (k : String) (v : β) :
    ∀ l : List (String × β), (k, v) ∈ l → (l.map Prod.fst).Nodup →
      alookup k l = some v := by
  intro l
  induction l with
  | nil => intro h; simp at h
  | cons p t ih =>
    obtain ⟨k1, w⟩ := p
    intro hmem hnd
    rcases List.mem_cons.mp hmem with heq | htl
    · rw [Prod.mk.injEq] at heq
      simp [alookup, heq.1, heq.2]
    · have hk1 : k1 ≠ k := by
        intro h
        subst h
        have : k1 ∈ t.map Prod.fst := List.mem_map_of_mem Prod.fst htl
        exact (List.nodup_cons.mp (by simpa using hnd)).1 this
      rw [show alookup k ((k1, w) :: t) = alookup k t by
        simp [alookup, beq_eq_false_iff_ne.mpr hk1]]
      exact ih htl (List.nodup_cons.mp (by simpa using hnd)).2

lemma alookup_addObsType_self (dt f : String) :
    ∀ ti : List (String × List String),
      alookup dt (addObsType dt f ti) =
        some (match alookup dt ti with
              | none => [f]
              | some fs => addFileToSet fs f) := by
  intro ti
  induction ti with
  | nil => simp [addObsType, alookup]
  | cons p rest ih =>
    obtain ⟨d, fs⟩ := p
    by_cases h : d = dt
    · subst h
      simp [addObsType, alookup]
    · have hb : (d == dt) = false := beq_eq_false_iff_ne.mpr h
      rw [show addObsType dt f ((d, fs) :: rest) = (d, fs) :: addObsType dt f rest by
        simp [addObsType, hb]]
      rw [show alookup dt ((d, fs) :: addObsType dt f rest) = alookup dt (addObsType dt f rest)
        by simp [alookup, hb]]
      rw [show alookup dt ((d, fs) :: rest) = alookup dt rest by simp [alookup, hb]]
      exact ih

lemma alookup_addObsType_other (dt f d : String) (h : d ≠ dt) :
    ∀ ti : List (String × List String),
      alookup d (addObsType dt f ti) = alookup d ti := by
  intro ti
  induction ti with
  | nil => simp [addObsType, alookup, beq_eq_false_iff_ne.mpr (Ne.symm h)]
  | cons p rest ih =>
    obtain ⟨d1, fs⟩ := p
    by_cases h1 : d1 = dt
    · subst h1
      simp [addObsType, alookup, beq_eq_false_iff_ne.mpr (Ne.symm h)]
    · have hb : (d1 == dt) = false := beq_eq_false_iff_ne.mpr h1
      rw [show addObsType dt f ((d1, fs) :: rest) = (d1, fs) :: addObsType dt f rest by
        simp [addObsType, hb]]
      by_cases h2 : d1 = d
      · subst h2
        simp [alookup]
      · have hb2 : (d1 == d) = false := beq_eq_false_iff_ne.mpr h2
        rw [show alookup d ((d1, fs) :: addObsType dt f rest) = alookup d (addObsType dt f rest)
          by simp [alookup, hb2]]
        rw [show alookup d ((d1, fs) :: rest) = alookup d rest by simp [alookup, hb2]]
        exact ih

lemma alookup_addObs_self (col dt f : String) :
    ∀ ac : AllCols,
      alookup col (addObs col dt f ac) =
        some (addObsType dt f ((alookup col ac).getD [])) := by
  intro ac
  induction ac with
  | nil => simp [addObs, alookup, addObsType]
  | cons p rest ih =>
    obtain ⟨c, ti⟩ := p
    by_cases h : c = col
    · subst h
      simp [addObs, alookup]
    · have hb : (c == col) = false := beq_eq_false_iff_ne.mpr h
      rw [show addObs col dt f ((c, ti) :: rest) = (c, ti) :: addObs col dt f rest by
        simp [addObs, hb]]
      rw [show alookup col ((c, ti) :: addObs col dt f rest) = alookup col (addObs col dt f rest)
        by simp [alookup, hb]]
      rw [show alookup col ((c, ti) :: rest) = alookup col rest by simp [alookup, hb]]
      exact ih

lemma alookup_addObs_other (col dt f c : String) (h : c ≠ col) :
    ∀ ac : AllCols, alookup c (addObs col dt f ac) = alookup c ac := by
  intro ac
  induction ac with
  | nil => simp [addObs, alookup, beq_eq_false_iff_ne.mpr (Ne.symm h)]
  | cons p rest ih =>
    obtain ⟨c1, ti⟩ := p
    by_cases h1 : c1 = col
    · subst h1
      simp [addObs, alookup, beq_eq_false_iff_ne.mpr (Ne.symm h)]
    · have hb : (c1 == col) = false := beq_eq_false_iff_ne.mpr h1
      rw [show addObs col dt f ((c1, ti) :: rest) = (c1, ti) :: addObs col dt f rest by
        simp [addObs, hb]]
      by_cases h2 : c1 = c
      · subst h2
        simp [alookup]
      · have hb2 : (c1 == c) = false := beq_eq_false_iff_ne.mpr h2
        rw [show alookup c ((c1, ti) :: addObs col dt f rest) = alookup c (addObs col dt f rest)
          by simp [alookup, hb2]]
        rw [show alookup c ((c1, ti) :: rest) = alookup c rest by simp [alookup, hb2]]
        exact ih

lemma mem_addFileToSet (fs : List String) (f f1 : String) :
    f1 ∈ addFileToSet fs f ↔ f1 ∈ fs ∨ f1 = f := by
  unfold addFileToSet
  by_cases h : fs.contains f
  · rw [if_pos h]
    have hf : f ∈ fs := List.mem_of_elem_eq_true h
    constructor
    · exact Or.inl
    · rintro (h1 | h1)
      · exact h1
      · exact h1 ▸ hf
  · rw [if_neg h]
    simp

lemma nodup_addFileToSet (fs : List String) (f : String) (h : fs.Nodup) :
    (addFileToSet fs f).Nodup := by
  unfold addFileToSet
  by_cases hc : fs.contains f
  · rw [if_pos hc]; exact h
  · rw [if_neg hc]
    have hf : f ∉ fs := fun hm => hc (List.elem_eq_true_of_mem hm)
    simp [List.nodup_append, h, hf]

lemma keys_addObsType (dt f : String) :
    ∀ ti : List (String × List String),
      (addObsType dt f ti).map Prod.fst =
        if dt ∈ ti.map Prod.fst then ti.map Prod.fst else ti.map Prod.fst ++ [dt] := by
  intro ti
  induction ti with
  | nil => simp [addObsType]
  | cons p rest ih =>
    obtain ⟨d, fs⟩ := p
    by_cases h : d = dt
    · subst h
      simp [addObsType]
    · have hb : (d == dt) = false := beq_eq_false_iff_ne.mpr h
      rw [show addObsType dt f ((d, fs) :: rest) = (d, fs) :: addObsType dt f rest by
        simp [addObsType, hb]]
      by_cases hm : dt ∈ rest.map Prod.fst
      · simp only [List.map_cons, ih, if_pos hm]
        rw [if_pos (List.mem_cons_of_mem d hm)]
      · simp only [List.map_cons, ih, if_neg hm]
        rw [if_neg (by simp [Ne.symm h, hm])]
        simp

lemma keys_addObs (col dt f : String) :
    ∀ ac : AllCols,
      (addObs col dt f ac).map Prod.fst =
        if col ∈ ac.map Prod.fst then ac.map Prod.fst else ac.map Prod.fst ++ [col] := by
  intro ac
  induction ac with
  | nil => simp [addObs]
  | cons p rest ih =>
    obtain ⟨c, ti⟩ := p
    by_cases h : c = col
    · subst h
      simp [addObs]
    · have hb : (c == col) = false := beq_eq_false_iff_ne.mpr h
      rw [show addObs col dt f ((c, ti) :: rest) = (c, ti) :: addObs col dt f rest by
        simp [addObs, hb]]
      by_cases hm : col ∈ rest.map Prod.fst
      · simp only [List.map_cons, ih, if_pos hm]
        rw [if_pos (List.mem_cons_of_mem c hm)]
      · simp only [List.map_cons, ih, if_neg hm]
        rw [if_neg (by simp [Ne.symm h, hm])]
        simp

lemma nodup_snoc_of_not_mem {α : Type} (l : List α) (a : α) (h : l.Nodup) (hm : a ∉ l) :
    (l ++ [a]).Nodup := by
  simp [List.nodup_append, h, hm]

lemma dedupFS_append_singleton (l : List String) (x : String) :
    dedupFS (l ++ [x]) =
      if x ∈ dedupFS l then dedupFS l else dedupFS l ++ [x] := by
  unfold dedupFS
  rw [List.foldl_append]
  rfl

lemma dedupFS_go_nodup :
    ∀ (l acc : List String), acc.Nodup →
      (l.foldl (fun acc x => if x ∈ acc then acc else acc ++ [x]) acc).Nodup := by
  intro l
  induction l with
  | nil => intro acc h; exact h
  | cons a t ih =>
    intro acc h
    rw [List.foldl_cons]
    by_cases hm : a ∈ acc
    · rw [if_pos hm]; exact ih acc h
    · rw [if_neg hm]
      exact ih (acc ++ [a]) (nodup_snoc_of_not_mem acc a h hm)

lemma dedupFS_nodup (l : List String) : (dedupFS l).Nodup :=
  dedupFS_go_nodup l [] List.nodup_nil

lemma dedupFS_go_length :
    ∀ (l acc : List String),
      (l.foldl (fun acc x => if x ∈ acc then acc else acc ++ [x]) acc).length ≤
        acc.length + l.length := by
  intro l
  induction l with
  | nil => intro acc; simp
  | cons a t ih =>
    intro acc
    rw [List.foldl_cons]
    by_cases hm : a ∈ acc
    · rw [if_pos hm]
      have h1 := ih acc
      simp only [List.length_cons]
      omega
    · rw [if_neg hm]
      have h1 := ih (acc ++ [a])
      simp only [List.length_append, List.length_cons, List.length_nil] at h1
      simp only [List.length_cons]
      omega

lemma dedupFS_length_le (l : List String) : (dedupFS l).length ≤ l.length := by
  have := dedupFS_go_length l []
  simpa using this

lemma typesOfObs_append_other (obs : List (String × String × String))
    (o : String × String × String) (col : String) (h : o.1 ≠ col) :
    typesOfObs (obs ++ [o]) col = typesOfObs obs col := by
  unfold typesOfObs
  rw [List.filter_append]
  rw [show List.filter (fun o => o.1 == col) [o] = [] by
    simp [List.filter_cons, beq_eq_false_iff_ne.mpr h]]
  simp

lemma typesOfObs_append_self (obs : List (String × String × String))
    (c0 d0 f0 : String) :
    typesOfObs (obs ++ [(c0, d0, f0)]) c0 =
      if d0 ∈ typesOfObs obs c0 then typesOfObs obs c0
      else typesOfObs obs c0 ++ [d0] := by
  unfold typesOfObs
  rw [List.filter_append]
  rw [show List.filter (fun o => o.1 == c0) [(c0, d0, f0)] = [(c0, d0, f0)] by
    simp [List.filter_cons]]
  rw [List.map_append]
  exact dedupFS_append_singleton _ d0

lemma AInv_step (obs : List (String × String × String)) (ac : AllCols)
    (o : String × String × String) (h : AInv obs ac) :
    AInv (obs ++ [o]) (addObs o.1 o.2.1 o.2.2 ac) := by
  obtain ⟨c0, d0, f0⟩ := o
  obtain ⟨hkeys, hcol⟩ := h
  constructor
  · rw [keys_addObs]
    by_cases hm : c0 ∈ ac.map Prod.fst
    · rw [if_pos hm]; exact hkeys
    · rw [if_neg hm]; exact nodup_snoc_of_not_mem _ _ hkeys hm
  · intro col
    obtain ⟨h1, h2, h3⟩ := hcol col
    by_cases hc : col = c0
    · subst hc
      rw [alookup_addObs_self col d0 f0 ac]
      simp only [Option.getD_some]
      refine ⟨?_, ?_, ?_⟩
      · rw [keys_addObsType, typesOfObs_append_self, h1]
      · rw [keys_addObsType]
        by_cases hm : d0 ∈ ((alookup col ac).getD []).map Prod.fst
        · rw [if_pos hm]; exact h2
        · rw [if_neg hm]; exact nodup_snoc_of_not_mem _ _ h2 hm
      · intro dt
        by_cases hdt : dt = d0
        · subst hdt
          rw [alookup_addObsType_self dt f0]
          constructor
          · intro fs hfs
            rw [Option.some.injEq] at hfs
            subst hfs
            rcases halo : alookup dt ((alookup col ac).getD []) with _ | fs0
            · have hnotin := (h3 dt).2 halo
              constructor
              · exact List.nodup_singleton f0
              · intro f
                simp [hnotin f]
            · obtain ⟨hnd0, hmem0⟩ := (h3 dt).1 fs0 halo
              constructor
              · exact nodup_addFileToSet fs0 f0 hnd0
              · intro f
                rw [mem_addFileToSet, hmem0 f]
                simp
          · intro hno
            simp at hno
        · rw [alookup_addObsType_other d0 f0 dt hdt]
          constructor
          · intro fs hfs
            obtain ⟨hnd0, hmem0⟩ := (h3 dt).1 fs hfs
            refine ⟨hnd0, fun f => ?_⟩
            rw [hmem0 f]
            simp [hdt]
          · intro hno f
            have := (h3 dt).2 hno f
            simp [this, hdt]
    · rw [alookup_addObs_other c0 d0 f0 col hc ac]
      refine ⟨?_, h2, ?_⟩
      · rw [typesOfObs_append_other obs (c0, d0, f0) col (Ne.symm hc)]
        exact h1
      · intro dt
        constructor
        · intro fs hfs
          obtain ⟨hnd0, hmem0⟩ := (h3 dt).1 fs hfs
          refine ⟨hnd0, fun f => ?_⟩
          rw [hmem0 f]
          simp [hc]
        · intro hno f
          have := (h3 dt).2 hno f
          simp [this, hc]

lemma AInv_nil : AInv [] [] := by
  refine ⟨List.nodup_nil, fun col => ⟨rfl, List.nodup_nil, fun dt => ⟨?_, ?_⟩⟩⟩
  · intro fs hfs
    simp [alookup] at hfs
  · intro _ f
    simp

lemma AInv_buildA (obs : List (String × String × String)) :
    AInv obs (buildA obs) := by
  induction obs using List.reverseRecOn with
  | nil => exact AInv_nil
  | append_singleton l o ih =>
    rw [show buildA (l ++ [o]) = addObs o.1 o.2.1 o.2.2 (buildA l) by
      unfold buildA; rw [List.foldl_append]; rfl]
    exact AInv_step l (buildA l) o ih

lemma countP_fst_of_nodup {β : Type} (dt : String) :
    ∀ ti : List (String × β), (ti.map Prod.fst).Nodup →
      ti.countP (fun e => e.1 == dt) = if dt ∈ ti.map Prod.fst then 1 else 0 := by
  intro ti
  induction ti with
  | nil => intro _; simp
  | cons p t ih =>
    obtain ⟨d, v⟩ := p
    intro hnd
    have hnd2 : d ∉ t.map Prod.fst ∧ (t.map Prod.fst).Nodup :=
      List.nodup_cons.mp (by simpa using hnd)
    rw [List.countP_cons, ih hnd2.2]
    by_cases h : d = dt
    · subst h
      have hnotin : d ∉ t.map Prod.fst := hnd2.1
      rw [if_neg hnotin]
      simp
    · rw [show (((d, v).1 == dt) : Bool) = false from beq_eq_false_iff_ne.mpr h]
      simp only [List.map_cons]
      by_cases hm : dt ∈ t.map Prod.fst
      · rw [if_pos hm, if_pos (List.mem_cons_of_mem _ hm)]
        simp
      · have hdm : ¬ dt ∈ d :: t.map Prod.fst := by
          simp [Ne.symm h, hm]
        rw [if_neg hm, if_neg hdm]
        simp

lemma filter_discEntry_self (tvs : List ((String × String) × String)) (col dt : String)
    (ti : List (String × List String)) (hnd : (ti.map Prod.fst).Nodup) :
    ((discEntry tvs col ti).filter
      (fun r => r.column == col && r.dataType == dt)).length =
      if 1 < ti.length ∧ dt ∈ ti.map Prod.fst then 1 else 0 := by
  unfold discEntry
  by_cases hl : 1 < ti.length
  · rw [if_pos hl]
    rw [← List.countP_eq_length_filter, List.countP_map]
    have hcp : ∀ e : String × List String,
        ((fun r : DiscRow => r.column == col && r.dataType == dt) ∘
          (fun dt1 => (⟨col, dt1.1, dt1.2,
            ", ".intercalate (dt1.2.map (fun f =>
              f ++ ": [" ++ lookupTop tvs col f ++ "]"))⟩ : DiscRow))) e =
          (e.1 == dt) := by
      intro e
      simp [Function.comp]
    rw [List.countP_congr (fun e _ => by rw [hcp e]), countP_fst_of_nodup dt ti hnd]
    by_cases hm : dt ∈ ti.map Prod.fst
    · rw [if_pos hm, if_pos ⟨hl, hm⟩]
    · rw [if_neg hm, if_neg (fun hp => hm hp.2)]
  · rw [if_neg hl]
    rw [show (List.filter (fun r : DiscRow => r.column == col && r.dataType == dt) []) = []
      from rfl]
    rw [if_neg (fun hp => hl hp.1)]
    rfl

lemma filter_discEntry_other (tvs : List ((String × String) × String)) (c col : String)
    (h : c ≠ col) (ti : List (String × List String)) (p2 : DiscRow → Bool) :
    (discEntry tvs c ti).filter (fun r => r.column == col && p2 r) = [] := by
  unfold discEntry
  by_cases hl : 1 < ti.length
  · rw [if_pos hl]
    rw [List.filter_eq_nil]
    intro r hr
    obtain ⟨e, _, rfl⟩ := List.mem_map.mp hr
    simp [beq_eq_false_iff_ne.mpr h]
  · rw [if_neg hl]
    rfl

lemma discRowsOf_cons (tvs : List ((String × String) × String)) (c : String)
    (ti : List (String × List String)) (rest : AllCols) :
    discRowsOf tvs ((c, ti) :: rest) = discEntry tvs c ti ++ discRowsOf tvs rest := rfl

lemma discRowsOf_count (tvs : List ((String × String) × String)) (col dt : String) :
    ∀ ac : AllCols, (ac.map Prod.fst).Nodup →
      (∀ ti, alookup col ac = some ti → (ti.map Prod.fst).Nodup) →
      ((discRowsOf tvs ac).filter
        (fun r => r.column == col && r.dataType == dt)).length =
        (match alookup col ac with
         | none => 0
         | some ti => if 1 < ti.length ∧ dt ∈ ti.map Prod.fst then 1 else 0) := by
  intro ac
  induction ac with
  | nil => intro _ _; rfl
  | cons p rest ih =>
    obtain ⟨c, ti⟩ := p
    intro hnd hbuck
    have hnd2 : c ∉ rest.map Prod.fst ∧ (rest.map Prod.fst).Nodup :=
      List.nodup_cons.mp (by simpa using hnd)
    rw [discRowsOf_cons, List.filter_append, List.length_append]
    by_cases hc : c = col
    · subst hc
      have halo : alookup c ((c, ti) :: rest) = some ti := by simp [alookup]
      rw [halo]
      have halor : alookup c rest = none :=
        (alookup_eq_none_iff c rest).mpr hnd2.1
      have hrest := ih hnd2.2 (fun ti2 h2 => by rw [halor] at h2; cases h2)
      rw [halor] at hrest
      rw [hrest, filter_discEntry_self tvs c dt ti (hbuck ti halo)]
      simp
    · have halo : alookup col ((c, ti) :: rest) = alookup col rest := by
        simp [alookup, beq_eq_false_iff_ne.mpr hc]
      rw [halo]
      rw [filter_discEntry_other tvs c col hc ti (fun r => r.dataType == dt)]
      have hrest := ih hnd2.2 (fun ti2 h2 => hbuck ti2 (by rw [halo]; exact h2))
      simpa using hrest

lemma filter_discEntry_col_other (tvs : List ((String × String) × String))
    (c col : String) (h : c ≠ col) (ti : List (String × List String)) :
    (discEntry tvs c ti).filter (fun r => r.column == col) = [] := by
  unfold discEntry
  by_cases hl : 1 < ti.length
  · rw [if_pos hl]
    rw [List.filter_eq_nil]
    intro r hr
    obtain ⟨e, _, rfl⟩ := List.mem_map.mp hr
    simp [beq_eq_false_iff_ne.mpr h]
  · rw [if_neg hl]
    rfl

lemma discRowsOf_filter_col (tvs : List ((String × String) × String)) (col : String) :
    ∀ ac : AllCols, (ac.map Prod.fst).Nodup →
      (∀ ti, alookup col ac = some ti → ¬ 1 < ti.length) →
      (discRowsOf tvs ac).filter (fun r => r.column == col) = [] := by
  intro ac
  induction ac with
  | nil => intro _ _; rfl
  | cons p rest ih =>
    obtain ⟨c, ti⟩ := p
    intro hnd hlen
    have hnd2 : c ∉ rest.map Prod.fst ∧ (rest.map Prod.fst).Nodup :=
      List.nodup_cons.mp (by simpa using hnd)
    rw [discRowsOf_cons, List.filter_append]
    by_cases hc : c = col
    · subst hc
      have halo : alookup c ((c, ti) :: rest) = some ti := by simp [alookup]
      have hrest := ih hnd2.2 (fun ti2 h2 => by
        rw [(alookup_eq_none_iff c rest).mpr hnd2.1] at h2; cases h2)
      rw [hrest]
      rw [show discEntry tvs c ti = [] by unfold discEntry; rw [if_neg (hlen ti halo)]]
      rfl
    · have halo : alookup col ((c, ti) :: rest) = alookup col rest := by
        simp [alookup, beq_eq_false_iff_ne.mpr hc]
      have hrest := ih hnd2.2 (fun ti2 h2 => hlen ti2 (by rw [halo]; exact h2))
      rw [hrest, filter_discEntry_col_other tvs c col hc ti]
      rfl

lemma mem_discRowsOf (tvs : List ((String × String) × String)) (ac : AllCols)
    (r : DiscRow) (hr : r ∈ discRowsOf tvs ac) :
    ∃ c ti, (c, ti) ∈ ac ∧ 1 < ti.length ∧
      ∃ e ∈ ti, r.column = c ∧ r.dataType = e.1 ∧ r.files = e.2 := by
  unfold discRowsOf at hr
  rw [List.mem_flatten] at hr
  obtain ⟨l, hl, hrl⟩ := hr
  rw [List.mem_map] at hl
  obtain ⟨pr, hpr, rfl⟩ := hl
  refine ⟨pr.1, pr.2, hpr, ?_⟩
  unfold discEntry at hrl
  by_cases hlen : 1 < pr.2.length
  · rw [if_pos hlen] at hrl
    refine ⟨hlen, ?_⟩
    obtain ⟨e, he, rfl⟩ := List.mem_map.mp hrl
    exact ⟨e, he, rfl, rfl, rfl⟩
  · rw [if_neg hlen] at hrl
    cases hrl

lemma obsList_cons (pr : String × DataFrame) (t : List (String × DataFrame)) :
    obsList (pr :: t) =
      (fileObs pr.1 pr.2).map (fun cd => (cd.1, cd.2, basename pr.1)) ++ obsList t := rfl

lemma colObs_length (col : String) :
    ∀ files : List (String × DataFrame),
      (((obsList files).filter (fun o => o.1 == col)).map (fun o => o.2.1)).length =
        (files.map (fun pr =>
          ((fileObs pr.1 pr.2).filter (fun cd => cd.1 == col)).length)).sum := by
  intro files
  induction files with
  | nil => rfl
  | cons pr t ih =>
    rw [obsList_cons, List.filter_append, List.map_append, List.length_append, ih]
    rw [List.map_cons, List.sum_cons]
    congr 1
    rw [List.length_map, ← List.countP_eq_length_filter, List.countP_map,
      ← List.countP_eq_length_filter]
    rfl

lemma perfile_col_count (col : String) (pr : String × DataFrame)
    (hnd : ((fileObs pr.1 pr.2).map Prod.fst).Nodup) :
    ((fileObs pr.1 pr.2).filter (fun cd => cd.1 == col)).length =
      if col ∈ (fileObs pr.1 pr.2).map Prod.fst then 1 else 0 := by
  rw [← List.countP_eq_length_filter]
  exact countP_fst_of_nodup col (fileObs pr.1 pr.2) hnd

lemma sum_perfile_counts (col : String) :
    ∀ files : List (String × DataFrame),
      (∀ pr ∈ files, ((fileObs pr.1 pr.2).map Prod.fst).Nodup) →
      (files.map (fun pr =>
        ((fileObs pr.1 pr.2).filter (fun cd => cd.1 == col)).length)).sum =
        files.countP (fun pr => decide (col ∈ (fileObs pr.1 pr.2).map Prod.fst)) := by
  intro files
  induction files with
  | nil => intro _; rfl
  | cons pr t ih =>
    intro hnd
    rw [List.map_cons, List.sum_cons, List.countP_cons,
      ih (fun q hq => hnd q (List.mem_cons_of_mem pr hq)),
      perfile_col_count col pr (hnd pr (List.mem_cons_self pr t))]
    by_cases hm : col ∈ (fileObs pr.1 pr.2).map Prod.fst
    · rw [if_pos hm, if_pos (by simpa using hm)]
      omega
    · rw [if_neg hm, if_neg (by simpa using hm)]
      omega

/-- C6: for every collection of input files, the Discrepancies output has
exactly one row per (column, observed dtype) pair whenever the column is
observed with two or more distinct dtypes (and none otherwise); each row
lists exactly the files contributing that dtype for that column, without
duplicates; a column whose observed dtypes number at most one - in
particular, under per-file duplicate-free headers, a column appearing in
at most one file - produces zero discrepancy rows. -/
theorem c6_discrepancies (files : List (String × DataFrame)) :
    (∀ col dt : String,
      ((get_discrepancies files).filter
        (fun r => r.column == col && r.dataType == dt)).length =
        if 2 ≤ (typesOf files col).length ∧ dt ∈ typesOf files col then 1 else 0) ∧
    (∀ r ∈ get_discrepancies files,
      r.files.Nodup ∧
      ∀ f : String, f ∈ r.files ↔ (r.column, r.dataType, f) ∈ obsList files) ∧
    (∀ col : String, (typesOf files col).length ≤ 1 →
      (get_discrepancies files).filter (fun r => r.column == col) = []) ∧
    (∀ col : String,
      (∀ pr ∈ files, ((fileObs pr.1 pr.2).map Prod.fst).Nodup) →
      files.countP (fun pr => decide (col ∈ (fileObs pr.1 pr.2).map Prod.fst)) ≤ 1 →
      (typesOf files col).length ≤ 1) := by
  obtain ⟨hkeys, hcol⟩ := AInv_buildA (obsList files)
  refine ⟨?_, ?_, ?_, ?_⟩
  · intro col dt
    obtain ⟨h1, h2, h3⟩ := hcol col
    have hty : typesOf files col = typesOfObs (obsList files) col := rfl
    have hbuck : ∀ ti, alookup col (buildA (obsList files)) = some ti →
        (ti.map Prod.fst).Nodup := by
      intro ti hti
      rw [hti] at h2
      exact h2
    rw [show (get_discrepancies files).filter
        (fun r => r.column == col && r.dataType == dt) =
        (discRowsOf (topValuesOf files) (buildA (obsList files))).filter
          (fun r => r.column == col && r.dataType == dt) from rfl]
    rw [discRowsOf_count (topValuesOf files) col dt (buildA (obsList files)) hkeys hbuck]
    rcases halo : alookup col (buildA (obsList files)) with _ | ti
    · have hempty : typesOf files col = [] := by
        rw [halo] at h1
        rw [hty]
        simpa using h1.symm
      rw [hempty]
      rw [if_neg (by rintro ⟨ha, _⟩; simp at ha)]
    · rw [halo] at h1
      simp only [Option.getD_some] at h1
      have hmf : ti.map Prod.fst = typesOf files col := by rw [hty]; exact h1
      have hlen : ti.length = (typesOf files col).length := by
        rw [← hmf, List.length_map]
      show (if 1 < ti.length ∧ dt ∈ ti.map Prod.fst then 1 else 0) =
        if 2 ≤ (typesOf files col).length ∧ dt ∈ typesOf files col then 1 else 0
      by_cases hcond : 2 ≤ (typesOf files col).length ∧ dt ∈ typesOf files col
      · obtain ⟨hc1, hc2⟩ := hcond
        rw [if_pos (⟨by omega, by rw [hmf]; exact hc2⟩ :
              1 < ti.length ∧ dt ∈ ti.map Prod.fst),
          if_pos (⟨hc1, hc2⟩ :
              2 ≤ (typesOf files col).length ∧ dt ∈ typesOf files col)]
      · rw [if_neg hcond,
          if_neg (fun hp => hcond ⟨by have := hp.1; omega, hmf ▸ hp.2⟩)]
  · intro r hr
    obtain ⟨c, ti, hmem, hlen, e, he, hcolr, hdtr, hfr⟩ :=
      mem_discRowsOf (topValuesOf files) (buildA (obsList files)) r hr
    have halo : alookup c (buildA (obsList files)) = some ti :=
      alookup_of_mem_nodup c ti _ hmem hkeys
    obtain ⟨h1, h2, h3⟩ := hcol c
    rw [halo] at h2 h3
    simp only [Option.getD_some] at h2 h3
    have halo2 : alookup e.1 ti = some e.2 :=
      alookup_of_mem_nodup e.1 e.2 ti (Prod.mk.eta ▸ he) h2
    obtain ⟨hnd0, hmem0⟩ := (h3 e.1).1 e.2 halo2
    refine ⟨hfr ▸ hnd0, fun f => ?_⟩
    rw [hfr, hcolr, hdtr]
    exact hmem0 f
  · intro col hlen1
    obtain ⟨h1, h2, h3⟩ := hcol col
    have hbuck2 : ∀ ti, alookup col (buildA (obsList files)) = some ti →
        ¬ 1 < ti.length := by
      intro ti hti hgt
      rw [hti] at h1
      simp only [Option.getD_some] at h1
      have hlen : ti.length = (typesOf files col).length := by
        rw [show typesOf files col = typesOfObs (obsList files) col from rfl, ← h1,
          List.length_map]
      omega
    exact discRowsOf_filter_col (topValuesOf files) col (buildA (obsList files)) hkeys hbuck2
  · intro col hnd hcount
    have hle : (typesOf files col).length ≤
        (((obsList files).filter (fun o => o.1 == col)).map (fun o => o.2.1)).length := by
      rw [show typesOf files col = typesOfObs (obsList files) col from rfl]
      unfold typesOfObs
      exact dedupFS_length_le _
    rw [colObs_length col files, sum_perfile_counts col files hnd] at hle
    omega

/-- C6 witness: on the two-file run, amt (typed int64 in one file and
object in the other) yields exactly one int64 discrepancy row, the
consistently-typed Month/Year column yields none, and a column present
nowhere has at most one observed type. -/
theorem c6_discrepancies_witness :
    ((get_discrepancies c6WitFiles).filter
      (fun r => r.column == "amt" && r.dataType == "int64")).length = 1 ∧
    (get_discrepancies c6WitFiles).filter (fun r => r.column == "Month/Year") = [] ∧
    (typesOf c6WitFiles "other").length ≤ 1 := by
  refine ⟨?_, ?_, ?_⟩
  · have h := (c6_discrepancies c6WitFiles).1 "amt" "int64"
    rw [h, if_pos]
    exact ⟨by decide, by decide⟩
  · exact (c6_discrepancies c6WitFiles).2.2.1 "Month/Year" (by decide)
  · exact (c6_discrepancies c6WitFiles).2.2.2 "other" (by decide) (by decide)

/-- C10: with zero matched files, neither mode reaches its write step:
the transform path fails at pd.concat of the empty list (so no sorted
output table exists at all), and the validate path fails at
sort_values(by="month_year") on the empty, column-less stats frame. -/
theorem c10_empty_glob :
    transform_and_union_combined [] = .error "No objects to concatenate" ∧
    get_file_stats [] = .error "KeyError: month_year" ∧
    isOkE (transform_and_union_combined []) = false ∧
    (get_file_stats []).isOk = false :=
  ⟨rfl, rfl, rfl, rfl⟩
